import Mathlib

/-!
Shallow embedding of the temporal snapshot reconciler of the HR analytics
dashboards, covering the two `latest_per_employee` variants
(`src/pages/utils.py` and `src/hr_analytics_app.py`) and the snapshot
composer `load_data` of `src/hr_analytics_app.py`, together with proofs
of the specified properties.

Tables are modelled as a list of column names plus a list of rows, each
row an association list of (column name, cell value).  Cell values carry
integers, strings, dates (as calendar triples, ordered lexicographically,
exactly the order of the corresponding timestamps), exact fractions with a
fixed positive denominator (modelling the days/365.25 tenure division),
the invalid-timestamp marker `NaT` produced by `pd.to_datetime(errors="coerce")`,
and the missing-value marker `NaN`.  The sorting relation places `NaT` and
`NaN` after all proper values of a column, which is pandas'
`na_position="last"` policy used by `sort_values` on multiple keys.
-/

/-- A cell value of a table. `frac n d` is the exact rational `n / d`
(`d` is always the positive literal 1461, so structural equality and the
cross-multiplication order agree with the rational ones); it models the
float produced by the tenure division by 365.25 = 1461/4. -/
inductive Value where
  | int (n : Int)
  | frac (n d : Int)
  | str (s : String)
  | date (y m d : Int)
  | naT
  | na
deriving DecidableEq, Repr

/-- Character-list lexicographic order on code points: the order Python
uses to compare strings. -/
def listLexLe : List Char → List Char → Bool
  | [], _ => true
  | _ :: _, [] => false
  | a :: as, b :: bs => if a = b then listLexLe as bs else decide (a < b)

/-- Rank of a constructor: values of distinct kinds never mix inside one
sorted column in the modelled programs, and the missing markers `naT`/`na`
rank above every proper value, which realises pandas' `na_position="last"`. -/
def Value.rank : Value → Nat
  | .int _ => 0
  | .frac _ _ => 1
  | .str _ => 2
  | .date _ _ _ => 3
  | .naT => 4
  | .na => 5

/-- Lexicographic order on calendar dates (year, month, day). -/
def dateLe (y1 m1 d1 y2 m2 d2 : Int) : Bool :=
  decide (y1 < y2) || (decide (y1 = y2) && (decide (m1 < m2) || (decide (m1 = m2) && decide (d1 ≤ d2))))

/-- Total order on cell values used by the sorting steps.  Fractions are
ordered lexicographically by (numerator, denominator); every fraction the
model produces has the same denominator 1461, and on a fixed positive
denominator this coincides with the numeric order. -/
def Value.le : Value → Value → Bool
  | .int a, .int b => decide (a ≤ b)
  | .frac a c, .frac b d => decide (a < b) || (decide (a = b) && decide (c ≤ d))
  | .str a, .str b => listLexLe a.data b.data
  | .date y1 m1 d1, .date y2 m2 d2 => dateLe y1 m1 d1 y2 m2 d2
  | .naT, .naT => true
  | .na, .na => true
  | a, b => decide (a.rank ≤ b.rank)


/-- A row of a table: an association list from column labels to cell
values, in column order. -/
abbrev Row := List (String × Value)

/-- The canonical identifier column of every history table. -/
def eidCol : String := "employee_id"

/-- Reading one cell of a row.  A label the row does not carry reads as
the missing value, as a pandas left join fills absent matches with NaN. -/
def Row.get : Row → String → Value
  | [], _ => Value.na
  | p :: t, c => if p.1 = c then p.2 else Row.get t c

/-- Whether a row carries an entry with the given label. -/
def Row.carries : Row → String → Bool
  | [], _ => false
  | p :: t, c => decide (p.1 = c) || Row.carries t c

/-- Column assignment `row[c] = v`: every entry labelled `c` is
overwritten; a row without one gets the entry appended. -/
def Row.setEntry (r : Row) (c : String) (v : Value) : Row :=
  if r.carries c then r.map (fun p => if p.1 = c then (p.1, v) else p)
  else r ++ [(c, v)]

/-- A table: column labels plus rows. -/
structure DataFrame where
  cols : List String
  rows : List Row
deriving DecidableEq, Repr

/-- `pd.DataFrame()`. -/
def DataFrame.empty : DataFrame := ⟨[], []⟩

/-- `set(cs).issubset(df.columns)` — the column guard `safe_cols` of
`hr_analytics_app.py`. -/
def safeCols (df : DataFrame) (cs : List String) : Bool :=
  cs.all (fun c => df.cols.contains c)

/-- Whole-column assignment `df[c] = v` with a constant value. -/
def DataFrame.setCol (df : DataFrame) (c : String) (v : Value) : DataFrame :=
  ⟨if df.cols.contains c then df.cols else df.cols ++ [c],
   df.rows.map (fun r => r.setEntry c v)⟩

/-- Whole-column assignment `df[c] = f(df)` with a per-row value. -/
def DataFrame.setColWith (df : DataFrame) (c : String) (f : Row → Value) : DataFrame :=
  ⟨if df.cols.contains c then df.cols else df.cols ++ [c],
   df.rows.map (fun r => r.setEntry c (f r))⟩

/-- In-place column transformation `df[c] = g(df[c])` (used for
`pd.to_datetime`): every row's `c` cell is replaced by its image. -/
def DataFrame.mapCol (df : DataFrame) (c : String) (g : Value → Value) : DataFrame :=
  ⟨if df.cols.contains c then df.cols else df.cols ++ [c],
   df.rows.map (fun r => r.setEntry c (g (r.get c)))⟩

/-- `df.rename(columns={old: new})`. -/
def DataFrame.renameCol (df : DataFrame) (old new : String) : DataFrame :=
  ⟨df.cols.map (fun c => if c = old then new else c),
   df.rows.map (fun r => r.map (fun p => if p.1 = old then (new, p.2) else p))⟩

/-- Column projection `df[[c | c in cs, c in df.columns]]` (the guarded
list-comprehension form, total). -/
def DataFrame.selectPresent (df : DataFrame) (cs : List String) : DataFrame :=
  ⟨cs.filter (fun c => df.cols.contains c),
   df.rows.map (fun r => (cs.filter (fun c => df.cols.contains c)).map (fun c => (c, r.get c)))⟩

/-- Column projection `df[[cs]]`; raises `KeyError` when a requested
label is absent. -/
def DataFrame.selectCols (df : DataFrame) (cs : List String) : Except String DataFrame :=
  if cs.all (fun c => df.cols.contains c) then
    .ok ⟨cs, df.rows.map (fun r => cs.map (fun c => (c, r.get c)))⟩
  else .error ("KeyError: column selection")

/-- Worker for `drop_duplicates`: drop any row equal to an already seen
one. -/
def dedupRowsGo (seen : List Row) : List Row → List Row
  | [] => []
  | r :: rs =>
    if seen.any (fun s => decide (s = r)) then dedupRowsGo seen rs
    else r :: dedupRowsGo (r :: seen) rs

/-- `df.drop_duplicates()`: keep the first occurrence of each full row. -/
def dedupRows (l : List Row) : List Row := dedupRowsGo [] l

/-- `df.drop_duplicates()` at table level. -/
def DataFrame.dropDuplicates (df : DataFrame) : DataFrame :=
  ⟨df.cols, dedupRows df.rows⟩

/-- Split a character list at every dash. -/
def splitDash : List Char → List (List Char)
  | [] => [[]]
  | c :: cs =>
    if c = '-' then [] :: splitDash cs
    else
      match splitDash cs with
      | [] => [[c]]
      | g :: gs => (c :: g) :: gs

/-- Read a non-empty all-digit character list as a number. -/
def digitsToNat? (cs : List Char) : Option Nat :=
  if cs.isEmpty then none
  else
    cs.foldl
      (fun acc c =>
        match acc with
        | none => none
        | some n => if c.isDigit then some (n * 10 + (c.toNat - 48)) else none)
      (some 0)

/-- Parse an ISO `YYYY-MM-DD` date string; `none` on anything else
(the unparseable case of `pd.to_datetime`). -/
def parseDate (s : String) : Option (Int × Int × Int) :=
  match (splitDash s.data).map digitsToNat? with
  | [some y, some m, some d] =>
    if 1 ≤ m ∧ m ≤ 12 ∧ 1 ≤ d ∧ d ≤ 31 then some (((y : Int)), ((m : Int)), ((d : Int)))
    else none
  | _ => none

/-- `pd.to_datetime(v, errors="coerce")` on one cell: timestamps pass
through, parseable date strings become timestamps, everything else
(including `NaN`) coerces to `NaT`.  Integer cells (nanosecond epochs)
never occur in the date columns of the modelled tables and are treated
as unparseable. -/
def toDatetime : Value → Value
  | .date y m d => .date y m d
  | .str s =>
    match parseDate s with
    | some (y, m, d) => .date y m d
    | none => .naT
  | _ => .naT

/-- Day count since 1970-01-01 of a civil date (the standard
days-from-civil algorithm, on integer floor division). -/
def daysFromCivil (y m d : Int) : Int :=
  (fun y2 =>
    (fun era =>
      (fun yoe =>
        (fun mp =>
          (fun doy =>
            (fun doe => era * 146097 + doe - 719468)
            (yoe * 365 + yoe / 4 - yoe / 100 + doy))
          ((153 * mp + 2) / 5 + d - 1))
        (if 2 < m then m - 3 else m + 9))
      (y2 - era * 400))
    (y2 / 400))
  (if m ≤ 2 then y - 1 else y)

/-- The pair-of-keys row order used by
`sort_values(["employee_id", sort_col])`: ascending on the identifier,
then ascending on the ordering column, missing markers last in each key. -/
def rowLeB (k1 k2 : String) (a b : Row) : Bool :=
  (Value.le (a.get k1) (b.get k1) && !(Value.le (b.get k1) (a.get k1)))
    || (decide (a.get k1 = b.get k1) && Value.le (a.get k2) (b.get k2))

/-- Propositional form of `rowLeB`, the relation handed to the stable
sort. -/
def RowLe (k1 k2 : String) (a b : Row) : Prop := rowLeB k1 k2 a b = true


/-! ### Order lemmas for the sorting relation -/

theorem listLexLe_refl (l : List Char) : listLexLe l l = true := by
  induction l with
  | nil => rfl
  | cons a as ih => simp [listLexLe, ih]

theorem listLexLe_total (l1 l2 : List Char) : listLexLe l1 l2 = true ∨ listLexLe l2 l1 = true := by
  induction l1 generalizing l2 with
  | nil => left; rfl
  | cons a as ih =>
    cases l2 with
    | nil => right; rfl
    | cons b bs =>
      by_cases hab : a = b
      · subst hab
        rcases ih bs with h | h <;> simp [listLexLe, h]
      · have hba : ¬ b = a := fun h => hab h.symm
        rcases lt_or_gt_of_ne (show a ≠ b from hab) with h | h
        · left; simp [listLexLe, hab, h]
        · right; simp [listLexLe, hba, h]

theorem listLexLe_antisymm {l1 l2 : List Char} (h1 : listLexLe l1 l2 = true)
    (h2 : listLexLe l2 l1 = true) : l1 = l2 := by
  induction l1 generalizing l2 with
  | nil =>
    cases l2 with
    | nil => rfl
    | cons b bs => simp [listLexLe] at h2
  | cons a as ih =>
    cases l2 with
    | nil => simp [listLexLe] at h1
    | cons b bs =>
      by_cases hab : a = b
      · subst hab
        simp only [listLexLe, if_pos rfl] at h1 h2
        rw [ih h1 h2]
      · have hba : ¬ b = a := fun h => hab h.symm
        simp only [listLexLe, if_neg hab, decide_eq_true_eq] at h1
        simp only [listLexLe, if_neg hba, decide_eq_true_eq] at h2
        exact absurd h1 (not_lt_of_gt h2)

theorem listLexLe_trans {l1 l2 l3 : List Char} (h1 : listLexLe l1 l2 = true)
    (h2 : listLexLe l2 l3 = true) : listLexLe l1 l3 = true := by
  induction l1 generalizing l2 l3 with
  | nil => rfl
  | cons a as ih =>
    cases l2 with
    | nil => simp [listLexLe] at h1
    | cons b bs =>
      cases l3 with
      | nil => simp [listLexLe] at h2
      | cons c cs =>
        by_cases hab : a = b <;> by_cases hbc : b = c
        · subst hab; subst hbc
          simp only [listLexLe, if_pos rfl] at h1 h2 ⊢
          exact ih h1 h2
        · subst hab
          simp only [listLexLe, if_pos rfl] at h1
          simpa [listLexLe, hbc] using h2
        · subst hbc
          simpa [listLexLe, hab] using h1
        · simp only [listLexLe, if_neg hab, decide_eq_true_eq] at h1
          simp only [listLexLe, if_neg hbc, decide_eq_true_eq] at h2
          have hac : a < c := lt_trans h1 h2
          simp [listLexLe, ne_of_lt hac, hac]

theorem dateLe_refl (y m d : Int) : dateLe y m d y m d = true := by
  simp [dateLe]

theorem dateLe_total (y1 m1 d1 y2 m2 d2 : Int) :
    dateLe y1 m1 d1 y2 m2 d2 = true ∨ dateLe y2 m2 d2 y1 m1 d1 = true := by
  simp only [dateLe, Bool.or_eq_true, Bool.and_eq_true, decide_eq_true_eq]
  omega

theorem dateLe_antisymm {y1 m1 d1 y2 m2 d2 : Int} (h1 : dateLe y1 m1 d1 y2 m2 d2 = true)
    (h2 : dateLe y2 m2 d2 y1 m1 d1 = true) : y1 = y2 ∧ m1 = m2 ∧ d1 = d2 := by
  simp only [dateLe, Bool.or_eq_true, Bool.and_eq_true, decide_eq_true_eq] at h1 h2
  omega

theorem dateLe_trans {y1 m1 d1 y2 m2 d2 y3 m3 d3 : Int} (h1 : dateLe y1 m1 d1 y2 m2 d2 = true)
    (h2 : dateLe y2 m2 d2 y3 m3 d3 = true) : dateLe y1 m1 d1 y3 m3 d3 = true := by
  simp only [dateLe, Bool.or_eq_true, Bool.and_eq_true, decide_eq_true_eq] at h1 h2 ⊢
  omega

theorem Value.le_refl (a : Value) : Value.le a a = true := by
  cases a <;> simp [Value.le, listLexLe_refl, dateLe_refl]

theorem Value.le_total (a b : Value) : Value.le a b = true ∨ Value.le b a = true := by
  cases a <;> cases b <;>
    simp only [Value.le, Value.rank, Bool.or_eq_true, Bool.and_eq_true, decide_eq_true_eq] <;>
    first
      | omega
      | exact listLexLe_total _ _
      | exact dateLe_total _ _ _ _ _ _
      | simp

theorem Value.le_antisymm {a b : Value} (h1 : Value.le a b = true)
    (h2 : Value.le b a = true) : a = b := by
  cases a <;> cases b <;>
    simp only [Value.le, Value.rank, Bool.or_eq_true, Bool.and_eq_true,
      decide_eq_true_eq] at h1 h2 <;>
    first
      | omega
      | rfl
      | (rw [Value.str.injEq]; exact String.ext (listLexLe_antisymm h1 h2))
      | (rw [Value.date.injEq]; exact dateLe_antisymm h1 h2)
      | (rw [Value.int.injEq]; omega)
      | (rw [Value.frac.injEq]; omega)

theorem Value.le_trans {a b c : Value} (h1 : Value.le a b = true)
    (h2 : Value.le b c = true) : Value.le a c = true := by
  cases a <;> cases b <;> cases c <;>
    simp only [Value.le, Value.rank, Bool.or_eq_true, Bool.and_eq_true,
      decide_eq_true_eq] at h1 h2 ⊢ <;>
    first
      | omega
      | exact listLexLe_trans h1 h2
      | exact dateLe_trans h1 h2

instance (k1 k2 : String) : DecidableRel (RowLe k1 k2) :=
  fun a b => instDecidableEqBool (rowLeB k1 k2 a b) true

instance (k1 k2 : String) : IsTotal Row (RowLe k1 k2) where
  total a b := by
    unfold RowLe rowLeB
    simp only [Bool.or_eq_true, Bool.and_eq_true, Bool.not_eq_true', decide_eq_true_eq]
    rcases Value.le_total (a.get k1) (b.get k1) with h | h
    · by_cases h2 : Value.le (b.get k1) (a.get k1) = true
      · have he : a.get k1 = b.get k1 := Value.le_antisymm h h2
        rcases Value.le_total (a.get k2) (b.get k2) with h3 | h3
        · exact Or.inl (Or.inr ⟨he, h3⟩)
        · exact Or.inr (Or.inr ⟨he.symm, h3⟩)
      · exact Or.inl (Or.inl ⟨h, by simpa using h2⟩)
    · by_cases h2 : Value.le (a.get k1) (b.get k1) = true
      · have he : a.get k1 = b.get k1 := Value.le_antisymm h2 h
        rcases Value.le_total (a.get k2) (b.get k2) with h3 | h3
        · exact Or.inl (Or.inr ⟨he, h3⟩)
        · exact Or.inr (Or.inr ⟨he.symm, h3⟩)
      · exact Or.inr (Or.inl ⟨h, by simpa using h2⟩)

instance (k1 k2 : String) : IsTrans Row (RowLe k1 k2) where
  trans a b c h1 h2 := by
    unfold RowLe rowLeB at h1 h2 ⊢
    simp only [Bool.or_eq_true, Bool.and_eq_true, Bool.not_eq_true', decide_eq_true_eq] at h1 h2 ⊢
    rcases h1 with ⟨hab, hnba⟩ | ⟨hab, hab2⟩
    · rcases h2 with ⟨hbc, hncb⟩ | ⟨hbc, hbc2⟩
      · refine Or.inl ⟨Value.le_trans hab hbc, ?_⟩
        by_contra h
        simp only [Bool.not_eq_false] at h
        exact absurd (Value.le_trans h hab) (by simpa using hncb)
      · refine Or.inl ⟨?_, ?_⟩
        · rw [← hbc]; exact hab
        · rw [← hbc]; exact hnba
    · rcases h2 with ⟨hbc, hncb⟩ | ⟨hbc, hbc2⟩
      · refine Or.inl ⟨?_, ?_⟩
        · rw [hab]; exact hbc
        · rw [hab]; exact hncb
      · exact Or.inr ⟨hab.trans hbc, Value.le_trans hab2 hbc2⟩

/-- `df.sort_values([k1, k2])`: numpy's `lexsort` is stable, as is
insertion sort with a total, transitive relation. -/
def DataFrame.sortValues (df : DataFrame) (k1 k2 : String) : DataFrame :=
  ⟨df.cols, List.insertionSort (RowLe k1 k2) df.rows⟩

/-- Keys `groupby` drops (`dropna=True`). -/
def isNaKey : Value → Bool
  | .naT => true
  | .na => true
  | _ => false

/-- `groupby("employee_id", as_index=False).tail(1)` on an already
sorted frame: keep, in frame order, each row that is the last one
carrying its (non-missing) identifier value. -/
def tailPerGroup : List Row → List Row
  | [] => []
  | r :: rs =>
    if isNaKey (r.get eidCol) then tailPerGroup rs
    else if rs.any (fun s => decide (s.get eidCol = r.get eidCol)) then tailPerGroup rs
    else r :: tailPerGroup rs

/-- The sentinel `pd.Timestamp("1970-01-01")`. -/
def epochTs : Value := .date 1970 1 1

/-- The temporary ordering column name of the utils variant. -/
def tmpDateCol : String := "_tmp_date"

/-- `latest_per_employee` of `src/pages/utils.py`: `None`, empty and
identifier-less tables yield an empty frame; a missing ordering column is
replaced by the epoch sentinel column `_tmp_date`; the ordering column is
coerced with `pd.to_datetime(errors="coerce")`; then stable sort by
(identifier, ordering column) and last row of each identifier group. -/
def latest_per_employee (odf : Option DataFrame) (dateCol : String) : DataFrame :=
  match odf with
  | none => DataFrame.empty
  | some df =>
    if df.rows.isEmpty || !(df.cols.contains eidCol) then DataFrame.empty
    else
      (fun dc =>
        (fun d1 =>
          (fun d2 =>
            (fun d3 => DataFrame.mk d3.cols (tailPerGroup d3.rows))
            (d2.sortValues eidCol dc))
          (d1.mapCol dc toDatetime))
        (if df.cols.contains dateCol then df else df.setCol tmpDateCol epochTs))
      (if df.cols.contains dateCol then dateCol else tmpDateCol)

/-- `latest_per_employee` of `src/hr_analytics_app.py`: an empty frame is
returned unchanged; a missing ordering column is materialised under its
own name with the epoch sentinel; no datetime coercion; sorting raises
`KeyError` when the identifier column is absent. -/
def latest_per_employee_app (df : DataFrame) (sortCol : String) : Except String DataFrame :=
  if df.rows.isEmpty then .ok df
  else
    (fun tmp =>
      if !(tmp.cols.contains eidCol) then .error ("KeyError: employee_id")
      else
        (fun d => .ok (DataFrame.mk d.cols (tailPerGroup d.rows)))
        (tmp.sortValues eidCol sortCol))
    (if df.cols.contains sortCol then df else df.setCol sortCol epochTs)

deriving instance DecidableEq for Except

/-- The `_x` suffix `pd.merge` puts on an overlapping left column. -/
def sufX (c : String) : String := c ++ ("_x")

/-- The `_y` suffix `pd.merge` puts on an overlapping right column. -/
def sufY (c : String) : String := c ++ ("_y")

/-- The overlap test of `pd.merge`: a non-key column occurring on both
sides is suffixed. -/
def mergeOverlap (l r : DataFrame) (key c : String) : Bool :=
  !(decide (c = key)) && l.cols.contains c && r.cols.contains c

/-- Left-side column labels after the merge. -/
def mergeLCols (l r : DataFrame) (key : String) : List String :=
  l.cols.map (fun c => if mergeOverlap l r key c then sufX c else c)

/-- Right-side column labels after the merge (the key is not repeated). -/
def mergeRCols (l r : DataFrame) (key : String) : List String :=
  (r.cols.filter (fun c => !(decide (c = key)))).map
    (fun c => if l.cols.contains c then sufY c else c)

/-- A left row with its overlapping labels suffixed. -/
def mergeLRow (l r : DataFrame) (key : String) (lr : Row) : Row :=
  lr.map (fun p => if mergeOverlap l r key p.1 then (sufX p.1, p.2) else p)

/-- The right-side cells contributed by one matching right row. -/
def mergeRRow (l r : DataFrame) (key : String) (rr : Row) : Row :=
  (r.cols.filter (fun c => !(decide (c = key)))).map
    (fun c => (if l.cols.contains c then sufY c else c, rr.get c))

/-- The NaN fill used for a left row without a match. -/
def mergeFill (l r : DataFrame) (key : String) : Row :=
  (r.cols.filter (fun c => !(decide (c = key)))).map
    (fun c => (if l.cols.contains c then sufY c else c, Value.na))

/-- Row construction of `l.merge(r, on=key, how="left")`: left order is
kept; a left row is repeated once per matching right row (in right table
order) or once with the NaN fill when nothing matches. -/
def mergeRowsGo (l r : DataFrame) (key : String) : List Row → List Row
  | [] => []
  | lr :: rest =>
    (match r.rows.filter (fun rr => decide (rr.get key = lr.get key)) with
     | [] => [mergeLRow l r key lr ++ mergeFill l r key]
     | ms => ms.map (fun rr => mergeLRow l r key lr ++ mergeRRow l r key rr))
    ++ mergeRowsGo l r key rest

/-- `l.merge(r, on=key, how="left")`; raises `KeyError` when either side
lacks the key column. -/
def mergeLeft (l r : DataFrame) (key : String) : Except String DataFrame :=
  if l.cols.contains key && r.cols.contains key then
    .ok ⟨mergeLCols l r key ++ mergeRCols l r key, mergeRowsGo l r key l.rows⟩
  else .error ("KeyError: merge key")

/-- The seven CSV-loaded tables `load_data` of `hr_analytics_app.py`
consumes. -/
structure Tables where
  salary : DataFrame
  employee : DataFrame
  cur_snap : DataFrame
  department : DataFrame
  dept_emp : DataFrame
  dept_mgr : DataFrame
  title : DataFrame
deriving DecidableEq, Repr

/-- The dictionary `load_data` returns. -/
structure LoadResult where
  salary : DataFrame
  employee : DataFrame
  snapshot : DataFrame
  department : DataFrame
  dept_emp : DataFrame
  dept_mgr : DataFrame
  title : DataFrame
deriving DecidableEq, Repr

/-- Coerce the listed columns with `pd.to_datetime` where present. -/
def dateNorm (df : DataFrame) (cs : List String) : DataFrame :=
  cs.foldl (fun d c => if d.cols.contains c then d.mapCol c toDatetime else d) df

/-- The date-normalisation loop at the top of `load_data`. -/
def normTables (t : Tables) : Tables :=
  Tables.mk
    (dateNorm t.salary [("from_date"), ("to_date")])
    (dateNorm t.employee [("birth_date"), ("hire_date"), ("termination_date")])
    t.cur_snap
    t.department
    (dateNorm t.dept_emp [("from_date"), ("to_date")])
    t.dept_mgr
    (dateNorm t.title [("from_date"), ("to_date")])

/-- `datetime.now().year - birth_date.dt.year` on one cell: NaT or a
missing birth date gives NaN. -/
def ageOf (nowYear : Int) (v : Value) : Value :=
  match v with
  | .date y _ _ => .int (nowYear - y)
  | _ => .na

/-- `(pd.Timestamp.today() - hire_date).dt.days / 365.25` on one cell,
as the exact fraction `(4 * days) / 1461`; NaT gives NaN. -/
def tenureOf (today : Int × Int × Int) (v : Value) : Value :=
  match v with
  | .date y m d =>
    .frac (4 * (daysFromCivil today.1 today.2.1 today.2.2 - daysFromCivil y m d)) 1461
  | _ => .na

/-- The base-frame preparation of `load_data`: rename `id` to
`employee_id`, then derive `age` and `company_tenure` from the two
wall-clock readings. -/
def prepEmp (employee : DataFrame) (nowYear : Int) (today : Int × Int × Int) : DataFrame :=
  (fun emp =>
    (fun emp2 =>
      if emp2.cols.contains ("hire_date") then
        emp2.setColWith ("company_tenure") (fun r => tenureOf today (r.get ("hire_date")))
      else emp2.setCol ("company_tenure") .na)
    (if emp.cols.contains ("birth_date") then
      emp.setColWith ("age") (fun r => ageOf nowYear (r.get ("birth_date")))
    else emp.setCol ("age") .na))
  (employee.renameCol ("id") eidCol)

/-- The ordering column the dept branch picks. -/
def deptSortCol (dept_emp : DataFrame) : String :=
  if dept_emp.cols.contains ("to_date") then ("to_date") else ("from_date")

/-- The "Latest dept" attribute table: primary reduction of
`dept_emp`+`department` when both carry the required columns, otherwise
the deduplicated `cur_snap` projection. -/
def deptLatestOf (n : Tables) : Except String DataFrame :=
  if safeCols n.dept_emp [eidCol, ("dept_id")] && safeCols n.department [("dept_id"), ("dept_name")] then do
    let dl ← latest_per_employee_app n.dept_emp (deptSortCol n.dept_emp)
    let m ← mergeLeft dl n.department ("dept_id")
    m.selectCols [eidCol, ("dept_id"), ("dept_name")]
  else
    .ok (DataFrame.dropDuplicates (n.cur_snap.selectPresent [eidCol, ("dept_name")]))

/-- The ordering column the title branch picks. -/
def titleSortCol (title : DataFrame) : String :=
  if title.cols.contains ("to_date") then ("to_date") else ("from_date")

/-- The "Latest title" attribute table. -/
def titleLatestOf (n : Tables) : Except String DataFrame :=
  if safeCols n.title [eidCol, ("title")] then do
    let tl ← latest_per_employee_app n.title (titleSortCol n.title)
    tl.selectCols [eidCol, ("title")]
  else
    .ok (DataFrame.dropDuplicates (n.cur_snap.selectPresent [eidCol, ("title")]))

/-- The ordering column the salary branch picks. -/
def salSortCol (salary : DataFrame) : String :=
  if salary.cols.contains ("from_date") then ("from_date") else ("amount")

/-- The "Latest salary" attribute table: reduction of `salary` when
usable, otherwise an empty two-column frame. -/
def salLatestOf (n : Tables) : Except String DataFrame :=
  if safeCols n.salary [eidCol, ("amount")] then do
    let sl ← latest_per_employee_app n.salary (salSortCol n.salary)
    let s2 ← sl.selectCols [eidCol, ("amount")]
    .ok (s2.renameCol ("amount") ("latest_salary"))
  else
    .ok ⟨[eidCol, ("latest_salary")], []⟩

/-- The "Bring extra columns from current snapshot" step. -/
def extraMerge (snapshot cur_snap : DataFrame) : Except String DataFrame :=
  (fun extra =>
    if extra.isEmpty then .ok snapshot
    else do
      let sel ← cur_snap.selectCols (eidCol :: extra)
      mergeLeft snapshot sel eidCol)
  (cur_snap.cols.filter (fun c => !(snapshot.cols.contains c) && !(decide (c = eidCol))))

/-- `load_data` of `src/hr_analytics_app.py`, with the two wall-clock
readings `datetime.now().year` and `pd.Timestamp.today()` made explicit
parameters. -/
def load_data (t : Tables) (nowYear : Int) (today : Int × Int × Int) : Except String LoadResult := do
  let n := normTables t
  let emp := prepEmp n.employee nowYear today
  let dl ← deptLatestOf n
  let tl ← titleLatestOf n
  let sl ← salLatestOf n
  let s1 ← mergeLeft emp dl eidCol
  let s2 ← mergeLeft s1 tl eidCol
  let s3 ← mergeLeft s2 sl eidCol
  let snap ← extraMerge s3 n.cur_snap
  .ok (LoadResult.mk n.salary n.employee snap n.department n.dept_emp n.dept_mgr n.title)

/-- The requested snapshot attribute names guarded at module level. -/
def snapshotGuardCols : List String :=
  [("dept_name"), ("title"), ("company_tenure"), ("age"), ("latest_salary")]

/-- The module-level guard loop after `load_data`: every requested
attribute name missing from the snapshot is added as a NaN-filled
column. -/
def ensureSnapshotCols (s : DataFrame) : DataFrame :=
  snapshotGuardCols.foldl (fun d c => if d.cols.contains c then d else d.setCol c .na) s

/-- The rows of a frame concerning one entity, in frame order. -/
def rowsFor (e : Value) (df : DataFrame) : List Row :=
  df.rows.filter (fun r => decide (r.get eidCol = e))

/-- Snapshot projection of a `load_data` result (empty frame on error). -/
def snapOf : Except String LoadResult → DataFrame
  | .ok r => r.snapshot
  | .error _ => DataFrame.empty

/-- The value a key-unique source table holds for entity `k` in column
`c` (NaN when the entity is absent): what a left join against that source
contributes. -/
def lookupVal (src : DataFrame) (key : String) (k : Value) (c : String) : Value :=
  match src.rows.filter (fun rr => decide (rr.get key = k)) with
  | [] => Value.na
  | rr :: _ => rr.get c

/-- Identifier values of a frame's rows, in row order. -/
def keysOf (df : DataFrame) : List Value :=
  df.rows.map (fun r => r.get eidCol)

/-- Fixture: one employee hired 2020-06-15, an empty current snapshot
with the identifier and attribute columns, all other tables empty. -/
def c5Tables : Tables :=
  Tables.mk
    DataFrame.empty
    ⟨[("id"), ("hire_date")], [[(("id"), Value.int 1), (("hire_date"), Value.str ("2020-06-15"))]]⟩
    ⟨[eidCol, ("dept_name"), ("title")], []⟩
    DataFrame.empty DataFrame.empty DataFrame.empty DataFrame.empty

/-- Fixture: one base employee but a current snapshot carrying two
`dept_name` rows for that identifier; the dept fallback keeps both and
the left join fans out. -/
def c2Tables : Tables :=
  Tables.mk
    DataFrame.empty
    ⟨[("id")], [[(("id"), Value.int 1)]]⟩
    ⟨[eidCol, ("dept_name")],
     [[(eidCol, Value.int 1), (("dept_name"), Value.str ("A"))],
      [(eidCol, Value.int 1), (("dept_name"), Value.str ("B"))]]⟩
    DataFrame.empty DataFrame.empty DataFrame.empty DataFrame.empty

/-- Fixture: one base employee and a key-unique current snapshot. -/
def c2wTables : Tables :=
  Tables.mk
    DataFrame.empty
    ⟨[("id")], [[(("id"), Value.int 1)]]⟩
    ⟨[eidCol, ("dept_name")],
     [[(eidCol, Value.int 1), (("dept_name"), Value.str ("A"))]]⟩
    DataFrame.empty DataFrame.empty DataFrame.empty DataFrame.empty

/-- Fixture: two base employees; the primary dept source (dept_emp with
department) is structurally usable but only covers employee 1, while the
current snapshot holds a dept_name for employee 2 as well. -/
def c6Tables : Tables :=
  Tables.mk
    DataFrame.empty
    ⟨[("id")], [[(("id"), Value.int 1)], [(("id"), Value.int 2)]]⟩
    ⟨[eidCol, ("dept_name")],
     [[(eidCol, Value.int 1), (("dept_name"), Value.str ("Sales"))],
      [(eidCol, Value.int 2), (("dept_name"), Value.str ("Ops"))]]⟩
    ⟨[("dept_id"), ("dept_name")],
     [[(("dept_id"), Value.int 10), (("dept_name"), Value.str ("Eng"))]]⟩
    ⟨[eidCol, ("dept_id"), ("from_date")],
     [[(eidCol, Value.int 1), (("dept_id"), Value.int 10),
       (("from_date"), Value.str ("2020-01-01"))]]⟩
    DataFrame.empty DataFrame.empty

/-- The resolved "Latest dept" attribute table `deptLatestOf` yields on
the `c6Tables` fixture: the primary reduction, covering employee 1
only. -/
def c6dl : DataFrame :=
  ⟨[eidCol, ("dept_id"), ("dept_name")],
   [[(eidCol, Value.int 1), (("dept_id"), Value.int 10),
     (("dept_name"), Value.str ("Eng"))]]⟩

/-! ### Row access lemmas -/

theorem Row.get_cons (p : String × Value) (t : Row) (c : String) :
    Row.get (p :: t) c = if p.1 = c then p.2 else Row.get t c := rfl

theorem Row.get_append (r1 r2 : Row) (c : String) :
    Row.get (r1 ++ r2) c = if r1.carries c then r1.get c else r2.get c := by
  induction r1 with
  | nil => simp [Row.get, Row.carries]
  | cons p t ih =>
    by_cases h : p.1 = c <;> simp [Row.get, Row.carries, h, ih]

theorem Row.get_overwrite_same (r : Row) (c : String) (v : Value) (hc : r.carries c = true) :
    Row.get (r.map (fun p => if p.1 = c then (p.1, v) else p)) c = v := by
  induction r with
  | nil => simp [Row.carries] at hc
  | cons p t ih =>
    by_cases h : p.1 = c
    · simp [Row.get, h]
    · simp only [Row.carries, Bool.or_eq_true, decide_eq_true_eq] at hc
      rcases hc with hc | hc
      · exact absurd hc h
      · simpa [Row.get, h] using ih hc

theorem Row.get_eq_na_of_not_carries (r : Row) (c : String) (hc : r.carries c = false) :
    r.get c = Value.na := by
  induction r with
  | nil => rfl
  | cons p t ih =>
    simp only [Row.carries, Bool.or_eq_false_iff, decide_eq_false_iff_not] at hc
    simpa [Row.get, hc.1] using ih hc.2

theorem Row.get_overwrite_ne (r : Row) (c c' : String) (v : Value) (h : c' ≠ c) :
    Row.get (r.map (fun p => if p.1 = c then (p.1, v) else p)) c' = r.get c' := by
  induction r with
  | nil => simp [Row.get]
  | cons p t ih =>
    by_cases hp : p.1 = c
    · have hp' : p.1 ≠ c' := fun hh => h (hh ▸ hp : c' = c)
      simp only [List.map_cons, if_pos hp, Row.get_cons, if_neg hp']
      exact ih
    · simp only [List.map_cons, if_neg hp, Row.get_cons]
      by_cases hq : p.1 = c'
      · simp [hq]
      · simp only [if_neg hq]
        exact ih

theorem Row.get_setEntry_same (r : Row) (c : String) (v : Value) :
    (r.setEntry c v).get c = v := by
  unfold Row.setEntry
  by_cases hc : r.carries c = true
  · rw [if_pos hc]
    exact Row.get_overwrite_same r c v hc
  · rw [if_neg hc, Row.get_append, if_neg hc]
    simp [Row.get]

theorem Row.get_setEntry_ne (r : Row) (c c' : String) (v : Value) (h : c' ≠ c) :
    (r.setEntry c v).get c' = r.get c' := by
  unfold Row.setEntry
  by_cases hc : r.carries c = true
  · rw [if_pos hc]
    exact Row.get_overwrite_ne r c c' v h
  · rw [if_neg hc, Row.get_append]
    by_cases hc' : r.carries c' = true
    · rw [if_pos hc']
    · rw [if_neg hc', Row.get_eq_na_of_not_carries r c' (by simpa using hc')]
      rw [Row.get_cons, if_neg (show (c, v).1 ≠ c' from fun hh => h hh.symm)]
      rfl

/-! ### Stable sort lemmas -/

section SortLemmas

variable {α : Type} (r : α → α → Prop) [DecidableRel r]

theorem filter_orderedInsert [IsTrans α r] (p : α → Bool) (a : α) (l : List α)
    (hs : List.Sorted r l) :
    (List.orderedInsert r a l).filter p =
      if p a then List.orderedInsert r a (l.filter p) else l.filter p := by
  induction l with
  | nil => by_cases hp : p a <;> simp [hp]
  | cons b t ih =>
    by_cases hr : r a b
    · rw [List.orderedInsert, if_pos hr]
      by_cases hp : p a
      · rw [List.filter_cons, if_pos (by simpa using hp), if_pos hp]
        have hall : ∀ x ∈ (b :: t).filter p, r a x := by
          intro x hx
          rcases List.mem_cons.mp (List.mem_of_mem_filter hx) with hxb | hxt
          · exact hxb ▸ hr
          · exact Trans.trans hr (List.rel_of_sorted_cons hs x hxt)
        cases hfc : (b :: t).filter p with
        | nil => simp
        | cons x xs =>
          rw [List.orderedInsert, if_pos (hall x (hfc ▸ List.mem_cons_self x xs))]
      · rw [List.filter_cons, if_neg (by simpa using hp), if_neg hp]
    · rw [List.orderedInsert, if_neg hr]
      have ihs := ih hs.of_cons
      by_cases hpb : p b <;> by_cases hp : p a <;>
        simp [List.filter_cons, hpb, hp, ihs, List.orderedInsert, hr]

theorem filter_insertionSort [IsTotal α r] [IsTrans α r] (p : α → Bool) (l : List α) :
    (List.insertionSort r l).filter p = List.insertionSort r (l.filter p) := by
  induction l with
  | nil => rfl
  | cons a t ih =>
    rw [List.insertionSort,
      filter_orderedInsert r p a _ (List.sorted_insertionSort r t), ih, List.filter_cons]
    by_cases hp : p a
    · rw [if_pos hp, if_pos (by simpa using hp), List.insertionSort]
    · rw [if_neg hp, if_neg (by simpa using hp)]

theorem insertionSort_of_all_tie (l : List α) (h : ∀ x ∈ l, ∀ y ∈ l, r x y) :
    List.insertionSort r l = l := by
  induction l with
  | nil => rfl
  | cons a t ih =>
    rw [List.insertionSort, ih (fun x hx y hy => h x (List.mem_cons_of_mem a hx) y
      (List.mem_cons_of_mem a hy))]
    cases t with
    | nil => rfl
    | cons b u =>
      rw [List.orderedInsert,
        if_pos (h a (List.mem_cons_self a _) b (List.mem_cons_of_mem a (List.mem_cons_self b u)))]

theorem sorted_getLast_rel (l : List α) (hs : List.Sorted r l) (y : α) (hy : y ∈ l)
    (z : α) (hz : l.getLast? = some z) : y = z ∨ r y z := by
  induction l with
  | nil => cases hy
  | cons a t ih =>
    cases t with
    | nil =>
      rcases List.mem_singleton.mp hy with rfl
      rw [List.getLast?_singleton] at hz
      exact Or.inl (Option.some_injective _ hz)
    | cons b u =>
      have hz' : (b :: u).getLast? = some z := by
        rwa [List.getLast?_cons_cons] at hz
      rcases List.mem_cons.mp hy with rfl | hyt
      · have hzm : z ∈ b :: u := by
          rcases List.mem_getLast?_eq_getLast (Option.mem_def.mpr hz') with ⟨hne, hzeq⟩
          rw [hzeq]
          exact List.getLast_mem hne
        exact Or.inr (List.rel_of_sorted_cons hs z hzm)
      · exact ih hs.of_cons hyt hz'

end SortLemmas

/-! ### Last-of-group lemmas -/

theorem tailPerGroup_sublist (l : List Row) : List.Sublist (tailPerGroup l) l := by
  induction l with
  | nil => exact List.Sublist.refl []
  | cons r rs ih =>
    unfold tailPerGroup
    by_cases h1 : isNaKey (r.get eidCol) = true
    · rw [if_pos h1]
      exact ih.cons r
    · rw [if_neg h1]
      by_cases h2 : rs.any (fun s => decide (s.get eidCol = r.get eidCol)) = true
      · rw [if_pos h2]
        exact ih.cons r
      · rw [if_neg h2]
        exact ih.cons₂ r

theorem tailPerGroup_keys_nodup (l : List Row) :
    ((tailPerGroup l).map (fun r => r.get eidCol)).Nodup := by
  induction l with
  | nil => exact List.nodup_nil
  | cons r rs ih =>
    unfold tailPerGroup
    by_cases h1 : isNaKey (r.get eidCol) = true
    · rw [if_pos h1]; exact ih
    · rw [if_neg h1]
      by_cases h2 : rs.any (fun s => decide (s.get eidCol = r.get eidCol)) = true
      · rw [if_pos h2]; exact ih
      · rw [if_neg h2]
        rw [List.map_cons, List.nodup_cons]
        refine ⟨?_, ih⟩
        intro hmem
        rcases List.mem_map.mp hmem with ⟨s, hs, hkey⟩
        have hsl : s ∈ rs := (tailPerGroup_sublist rs).mem hs
        exact h2 (List.any_eq_true.mpr ⟨s, hsl, by simpa using hkey⟩)

theorem tailPerGroup_filter (e : Value) (he : isNaKey e = false) (l : List Row) :
    (tailPerGroup l).filter (fun r => decide (r.get eidCol = e)) =
      ((l.filter (fun r => decide (r.get eidCol = e))).getLast?).toList := by
  induction l with
  | nil => rfl
  | cons r rs ih =>
    unfold tailPerGroup
    by_cases h1 : isNaKey (r.get eidCol) = true
    · have hpr : ¬ (r.get eidCol = e) := by
        intro hh
        rw [hh, he] at h1
        cases h1
      rw [if_pos h1, List.filter_cons, if_neg (by simpa using hpr)]
      exact ih
    · rw [if_neg h1]
      by_cases h2 : rs.any (fun s => decide (s.get eidCol = r.get eidCol)) = true
      · rw [if_pos h2]
        by_cases hp : r.get eidCol = e
        · rw [List.filter_cons, if_pos (by simpa using hp), ih]
          rcases List.any_eq_true.mp h2 with ⟨s, hs, hkey⟩
          have hsp : s.get eidCol = e := by
            simp only [decide_eq_true_eq] at hkey
            rw [hkey, hp]
          have hne : rs.filter (fun r => decide (r.get eidCol = e)) ≠ [] :=
            List.ne_nil_of_mem (List.mem_filter.mpr ⟨hs, by simpa using hsp⟩)
          cases hfc : rs.filter (fun r => decide (r.get eidCol = e)) with
          | nil => exact absurd hfc hne
          | cons x xs => rw [List.getLast?_cons_cons]
        · rw [List.filter_cons, if_neg (by simpa using hp)]
          exact ih
      · rw [if_neg h2]
        by_cases hp : r.get eidCol = e
        · have hfe : rs.filter (fun r => decide (r.get eidCol = e)) = [] := by
            rw [List.filter_eq_nil_iff]
            intro s hs
            simp only [decide_eq_true_eq]
            intro hse
            exact h2 (List.any_eq_true.mpr ⟨s, hs, by simp [hse, hp]⟩)
          rw [List.filter_cons, if_pos (by simpa using hp), ih, hfe,
            List.filter_cons, if_pos (by simpa using hp), hfe]
          rfl
        · rw [List.filter_cons, if_neg (by simpa using hp), ih,
            List.filter_cons, if_neg (by simpa using hp)]

/-! ### C3: totality on a missing identifier column -/

/-- C3 (counterexample): the `hr_analytics_app.py` variant of
`latest_per_employee`, cited by the claim, raises `KeyError` on a
non-empty table without the identifier column instead of returning an
empty result. -/
theorem C3_counterexample :
    latest_per_employee_app ⟨[("x")], [[(("x"), Value.int 1)]]⟩ ("from_date") =
      .error ("KeyError: employee_id") := by decide

/-- C3 (amended): the utils variant returns an empty frame for a `None`
input and for any table whose identifier column is missing (including
empty ones), without raising; the app variant does so only for empty
tables (returned unchanged), and raises `KeyError` on a non-empty table
lacking the identifier column. -/
theorem C3_amended_totality (df : DataFrame) (dateCol : String)
    (hmiss : df.cols.contains eidCol = false) (hne : dateCol ≠ eidCol) :
    latest_per_employee none dateCol = DataFrame.empty ∧
    latest_per_employee (some df) dateCol = DataFrame.empty ∧
    (df.rows.isEmpty = true → latest_per_employee_app df dateCol = .ok df) ∧
    (df.rows.isEmpty = false →
      latest_per_employee_app df dateCol = .error ("KeyError: employee_id")) := by
  refine ⟨rfl, ?_, ?_, ?_⟩
  · simp only [latest_per_employee]
    rw [if_pos]
    simp only [Bool.or_eq_true, Bool.not_eq_true']
    exact Or.inr hmiss
  · intro hemp
    unfold latest_per_employee_app
    rw [if_pos hemp]
  · intro hnemp
    unfold latest_per_employee_app
    rw [if_neg (by simp [hnemp])]
    by_cases hdc : df.cols.contains dateCol = true
    · rw [if_pos hdc]
      simp only [hmiss, Bool.not_false, if_pos]
    · rw [if_neg hdc]
      have hc2 : (df.setCol dateCol epochTs).cols.contains eidCol = false := by
        simp only [DataFrame.setCol]
        rw [if_neg (by simpa using hdc)]
        have h1 : eidCol ∉ df.cols := by simpa using hmiss
        have h2 : ¬ eidCol ∈ df.cols ++ [dateCol] := by
          intro hm
          rcases List.mem_append.mp hm with hmm | hmm
          · exact h1 hmm
          · exact hne (List.mem_singleton.mp hmm).symm
        simpa using h2
      simp only []
      rw [hc2]
      simp

/-- Witness for C3 (amended) at a concrete identifier-less table. -/
theorem C3_amended_totality_witness :
    latest_per_employee (some ⟨[("x")], [[(("x"), Value.int 1)]]⟩) ("from_date") =
      DataFrame.empty ∧
    latest_per_employee_app ⟨[("x")], [[(("x"), Value.int 1)]]⟩ ("from_date") =
      .error ("KeyError: employee_id") := by
  have h := C3_amended_totality ⟨[("x")], [[(("x"), Value.int 1)]]⟩ ("from_date")
    (by decide) (by decide)
  exact ⟨h.2.1, h.2.2.2 (by decide)⟩

/-! ### Row update and branch characterisation lemmas -/

theorem Row.carries_overwrite (r : Row) (c c' : String) (v : Value) :
    Row.carries (r.map (fun p => if p.1 = c then (p.1, v) else p)) c' = Row.carries r c' := by
  induction r with
  | nil => rfl
  | cons p t ih =>
    by_cases hp : p.1 = c <;> simp [Row.carries, hp, ih]

theorem Row.carries_append (r1 r2 : Row) (c : String) :
    Row.carries (r1 ++ r2) c = (Row.carries r1 c || Row.carries r2 c) := by
  induction r1 with
  | nil => simp [Row.carries]
  | cons p t ih => simp [Row.carries, ih, Bool.or_assoc]

theorem Row.carries_of_mem_label {r : Row} {p : String × Value} (hp : p ∈ r) :
    Row.carries r p.1 = true := by
  induction r with
  | nil => cases hp
  | cons q t ih =>
    rcases List.mem_cons.mp hp with rfl | hq
    · simp [Row.carries]
    · simp [Row.carries, ih hq]

theorem Row.setEntry_setEntry (r : Row) (c : String) (v w : Value) :
    (r.setEntry c v).setEntry c w = r.setEntry c w := by
  unfold Row.setEntry
  by_cases hc : Row.carries r c = true
  · rw [if_pos hc, if_pos (by rw [Row.carries_overwrite]; exact hc), if_pos hc, List.map_map]
    refine List.map_congr_left ?_
    intro p _
    by_cases hp : p.1 = c <;> simp [hp]
  · rw [if_neg hc, if_pos, if_neg hc]
    · rw [List.map_append]
      have h1 : r.map (fun p => if p.1 = c then (p.1, w) else p) = r := by
        have hall : ∀ p ∈ r, (if p.1 = c then (p.1, w) else p) = p := by
          intro p hp
          rw [if_neg]
          intro hpc
          exact hc (hpc ▸ Row.carries_of_mem_label hp)
        calc r.map (fun p => if p.1 = c then (p.1, w) else p)
            = r.map id := List.map_congr_left (by simpa using hall)
          _ = r := List.map_id r
      rw [h1]
      simp
    · rw [Row.carries_append]
      simp [Row.carries]

theorem DataFrame.mapCol_cols_of_contains (df : DataFrame) (c : String) (g : Value → Value)
    (h : df.cols.contains c = true) : (df.mapCol c g).cols = df.cols := by
  simp only [DataFrame.mapCol]
  rw [if_pos h]

/-- The utils `latest_per_employee` on a usable table whose ordering
column is present: coerce, stable sort, last of each group. -/
theorem latest_per_employee_present (df : DataFrame) (dateCol : String)
    (hne : df.rows.isEmpty = false) (hid : df.cols.contains eidCol = true)
    (hdc : df.cols.contains dateCol = true) :
    latest_per_employee (some df) dateCol =
      ⟨df.cols, tailPerGroup (List.insertionSort (RowLe eidCol dateCol)
        ((df.mapCol dateCol toDatetime).rows))⟩ := by
  simp only [latest_per_employee]
  rw [if_neg (by rw [hne, hid]; simp), if_pos hdc, if_pos hdc]
  simp only [DataFrame.sortValues]
  rw [DataFrame.mapCol_cols_of_contains df dateCol toDatetime hdc]

/-- The utils `latest_per_employee` on a usable table whose ordering
column is absent: append the sentinel column, coerce it (a no-op), sort
(all sentinel ties), last of each group. -/
theorem latest_per_employee_missing (df : DataFrame) (dateCol : String)
    (hne : df.rows.isEmpty = false) (hid : df.cols.contains eidCol = true)
    (hdc : df.cols.contains dateCol = false) (htmp : df.cols.contains tmpDateCol = false) :
    latest_per_employee (some df) dateCol =
      ⟨df.cols ++ [tmpDateCol], tailPerGroup (List.insertionSort (RowLe eidCol tmpDateCol)
        (df.rows.map (fun r => r.setEntry tmpDateCol epochTs)))⟩ := by
  simp only [latest_per_employee]
  rw [if_neg (by rw [hne, hid]; simp), if_neg (by rw [hdc]; simp), if_neg (by rw [hdc]; simp)]
  have hset : df.setCol tmpDateCol epochTs =
      ⟨df.cols ++ [tmpDateCol], df.rows.map (fun r => r.setEntry tmpDateCol epochTs)⟩ := by
    simp only [DataFrame.setCol]
    rw [if_neg (show ¬ df.cols.contains tmpDateCol = true from fun hh => by
      rw [htmp] at hh; cases hh)]
  rw [hset]
  have hcols : (df.cols ++ [tmpDateCol]).contains tmpDateCol = true := by
    simp [List.mem_append]
  simp only [DataFrame.sortValues, DataFrame.mapCol]
  rw [if_pos hcols]
  have hrows : (df.rows.map (fun r => r.setEntry tmpDateCol epochTs)).map
      (fun r => r.setEntry tmpDateCol (toDatetime (Row.get r tmpDateCol)))
      = df.rows.map (fun r => r.setEntry tmpDateCol epochTs) := by
    rw [List.map_map]
    refine List.map_congr_left ?_
    intro r _
    show (r.setEntry tmpDateCol epochTs).setEntry tmpDateCol
        (toDatetime (Row.get (r.setEntry tmpDateCol epochTs) tmpDateCol))
      = r.setEntry tmpDateCol epochTs
    rw [Row.get_setEntry_same]
    rw [show toDatetime epochTs = epochTs from rfl]
    exact Row.setEntry_setEntry r tmpDateCol epochTs epochTs
  rw [hrows]

theorem latest_per_employee_missing_rows (df : DataFrame) (dateCol : String)
    (hne : df.rows.isEmpty = false) (hid : df.cols.contains eidCol = true)
    (hdc : df.cols.contains dateCol = false) :
    (latest_per_employee (some df) dateCol).rows =
      tailPerGroup (List.insertionSort (RowLe eidCol tmpDateCol)
        (df.rows.map (fun r => r.setEntry tmpDateCol epochTs))) := by
  simp only [latest_per_employee]
  rw [if_neg (by rw [hne, hid]; simp), if_neg (by rw [hdc]; simp), if_neg (by rw [hdc]; simp)]
  simp only [DataFrame.sortValues, DataFrame.mapCol, DataFrame.setCol]
  have hrows : (df.rows.map (fun r => r.setEntry tmpDateCol epochTs)).map
      (fun r => r.setEntry tmpDateCol (toDatetime (Row.get r tmpDateCol)))
      = df.rows.map (fun r => r.setEntry tmpDateCol epochTs) := by
    rw [List.map_map]
    refine List.map_congr_left ?_
    intro r _
    show (r.setEntry tmpDateCol epochTs).setEntry tmpDateCol
        (toDatetime (Row.get (r.setEntry tmpDateCol epochTs) tmpDateCol))
      = r.setEntry tmpDateCol epochTs
    rw [Row.get_setEntry_same]
    exact Row.setEntry_setEntry r tmpDateCol epochTs epochTs
  rw [hrows]

theorem mem_rows_of_tailPerGroup_sort {l : List Row} {r : Row} (k1 k2 : String)
    (h : r ∈ tailPerGroup (List.insertionSort (RowLe k1 k2) l)) : r ∈ l :=
  (List.mem_insertionSort (RowLe k1 k2)).mp ((tailPerGroup_sublist _).mem h)

theorem option_toList_map {α β : Type} (o : Option α) (f : α → β) :
    (o.map f).toList = o.toList.map f := by
  cases o <;> rfl

/-! ### C4: missing ordering column policy -/

/-- C4: when the ordering column is absent, the utils
`latest_per_employee` gives every record the epoch sentinel
`1970-01-01` in `_tmp_date`, and for each entity the selected record is
the last one for that entity in the input's original row order (the
function is total, so nothing is thrown). -/
theorem C4_missing_ordering_sentinel (df : DataFrame) (dateCol : String)
    (hne : df.rows.isEmpty = false) (hid : df.cols.contains eidCol = true)
    (hdc : df.cols.contains dateCol = false)
    (e : Value) (he : isNaKey e = false) :
    (∀ r ∈ (latest_per_employee (some df) dateCol).rows, Row.get r tmpDateCol = epochTs) ∧
    rowsFor e (latest_per_employee (some df) dateCol) =
      ((df.rows.filter (fun r => decide (Row.get r eidCol = e))).getLast?).toList.map
        (fun r => r.setEntry tmpDateCol epochTs) := by
  have hrows := latest_per_employee_missing_rows df dateCol hne hid hdc
  have hkey : ∀ r : Row, Row.get (r.setEntry tmpDateCol epochTs) eidCol = Row.get r eidCol :=
    fun r => Row.get_setEntry_ne r tmpDateCol eidCol epochTs (by decide)
  constructor
  · intro r hr
    rw [hrows] at hr
    have hmem := mem_rows_of_tailPerGroup_sort eidCol tmpDateCol hr
    rcases List.mem_map.mp hmem with ⟨r0, _, rfl⟩
    exact Row.get_setEntry_same r0 tmpDateCol epochTs
  · unfold rowsFor
    rw [hrows, tailPerGroup_filter e he, filter_insertionSort]
    have hfm : (df.rows.map (fun r => r.setEntry tmpDateCol epochTs)).filter
          (fun r => decide (Row.get r eidCol = e))
        = (df.rows.filter (fun r => decide (Row.get r eidCol = e))).map
            (fun r => r.setEntry tmpDateCol epochTs) := by
      rw [List.filter_map]
      congr 1
      exact List.filter_congr (fun r _ => by simp [Function.comp, hkey r])
    rw [hfm]
    have htie : ∀ x ∈ (df.rows.filter (fun r => decide (Row.get r eidCol = e))).map
        (fun r => r.setEntry tmpDateCol epochTs),
        ∀ y ∈ (df.rows.filter (fun r => decide (Row.get r eidCol = e))).map
        (fun r => r.setEntry tmpDateCol epochTs), RowLe eidCol tmpDateCol x y := by
      intro x hx y hy
      rcases List.mem_map.mp hx with ⟨x0, hx0, rfl⟩
      rcases List.mem_map.mp hy with ⟨y0, hy0, rfl⟩
      have hxk : Row.get x0 eidCol = e := by simpa using (List.mem_filter.mp hx0).2
      have hyk : Row.get y0 eidCol = e := by simpa using (List.mem_filter.mp hy0).2
      unfold RowLe rowLeB
      rw [hkey x0, hkey y0, hxk, hyk, Row.get_setEntry_same, Row.get_setEntry_same]
      simp [Value.le_refl]
    rw [insertionSort_of_all_tie _ _ htie, List.getLast?_map, option_toList_map]

/-- Witness for C4 on a three-record table with two records for entity 1:
the last input record for each entity is selected, with the sentinel. -/
theorem C4_missing_ordering_sentinel_witness :
    rowsFor (Value.int 1) (latest_per_employee (some ⟨[eidCol, ("amount")],
        [[(eidCol, Value.int 1), (("amount"), Value.int 10)],
         [(eidCol, Value.int 2), (("amount"), Value.int 30)],
         [(eidCol, Value.int 1), (("amount"), Value.int 20)]]⟩) ("from_date")) =
      [[(eidCol, Value.int 1), (("amount"), Value.int 20), (tmpDateCol, epochTs)]] := by
  have h := C4_missing_ordering_sentinel ⟨[eidCol, ("amount")],
    [[(eidCol, Value.int 1), (("amount"), Value.int 10)],
     [(eidCol, Value.int 2), (("amount"), Value.int 30)],
     [(eidCol, Value.int 1), (("amount"), Value.int 20)]]⟩ ("from_date")
    (by decide) (by decide) (by decide) (Value.int 1) (by decide)
  rw [h.2]
  decide

/-! ### C10: output schema of the utils variant -/

/-- C10 (counterexample): with the ordering column present but holding a
date string, the selected row has its ordering cell coerced to a
timestamp, so it is not a row of the input. -/
theorem C10_counterexample :
    ¬ (∀ r ∈ (latest_per_employee (some ⟨[eidCol, ("d")],
        [[(eidCol, Value.int 1), (("d"), Value.str ("2020-01-05"))]]⟩) ("d")).rows,
        r ∈ [[(eidCol, Value.int 1), (("d"), Value.str ("2020-01-05"))]]) := by decide

/-- C10 (amended): with the ordering column absent (and no pre-existing
`_tmp_date` column) the output carries exactly the extra sentinel column
`_tmp_date` holding 1970-01-01; with it present the column set is
unchanged and every output row is a row of the input *after* the
ordering column is coerced to datetime — a row of the input itself
whenever that coercion fixes every row (e.g. the column already holds
timestamps). -/
theorem C10_amended_schema (df : DataFrame) (dateCol : String)
    (hne : df.rows.isEmpty = false) (hid : df.cols.contains eidCol = true) :
    (df.cols.contains dateCol = false → df.cols.contains tmpDateCol = false →
      (latest_per_employee (some df) dateCol).cols = df.cols ++ [tmpDateCol] ∧
      ∀ r ∈ (latest_per_employee (some df) dateCol).rows, Row.get r tmpDateCol = epochTs) ∧
    (df.cols.contains dateCol = true →
      (latest_per_employee (some df) dateCol).cols = df.cols ∧
      (∀ r ∈ (latest_per_employee (some df) dateCol).rows,
        r ∈ (df.mapCol dateCol toDatetime).rows) ∧
      ((∀ r ∈ df.rows, r.setEntry dateCol (toDatetime (Row.get r dateCol)) = r) →
        ∀ r ∈ (latest_per_employee (some df) dateCol).rows, r ∈ df.rows)) := by
  constructor
  · intro hdc htmp
    constructor
    · rw [latest_per_employee_missing df dateCol hne hid hdc htmp]
    · intro r hr
      rw [latest_per_employee_missing_rows df dateCol hne hid hdc] at hr
      rcases List.mem_map.mp (mem_rows_of_tailPerGroup_sort eidCol tmpDateCol hr)
        with ⟨r0, _, rfl⟩
      exact Row.get_setEntry_same r0 tmpDateCol epochTs
  · intro hdc
    have hpres := latest_per_employee_present df dateCol hne hid hdc
    refine ⟨by rw [hpres], ?_, ?_⟩
    · intro r hr
      rw [hpres] at hr
      exact mem_rows_of_tailPerGroup_sort eidCol dateCol hr
    · intro hfix r hr
      rw [hpres] at hr
      have hm := mem_rows_of_tailPerGroup_sort eidCol dateCol hr
      simp only [DataFrame.mapCol, hdc, if_pos] at hm
      rcases List.mem_map.mp hm with ⟨r0, hr0, rfl⟩
      rw [hfix r0 hr0]
      exact hr0

/-- Witness for C10 (amended) on a table lacking the ordering column:
the output column set is the input's plus `_tmp_date`. -/
theorem C10_amended_schema_witness :
    (latest_per_employee (some ⟨[eidCol, ("amount")],
        [[(eidCol, Value.int 1), (("amount"), Value.int 10)]]⟩) ("from_date")).cols =
      [eidCol, ("amount")] ++ [tmpDateCol] := by
  have h := C10_amended_schema ⟨[eidCol, ("amount")],
    [[(eidCol, Value.int 1), (("amount"), Value.int 10)]]⟩ ("from_date") (by decide) (by decide)
  exact (h.1 (by decide) (by decide)).1

/-! ### Per-entity class of the sorted output -/

theorem mem_of_getLast?_eq_some {α : Type} {l : List α} {z : α} (hz : l.getLast? = some z) :
    z ∈ l := by
  rcases List.mem_getLast?_eq_getLast (Option.mem_def.mpr hz) with ⟨hne, hzeq⟩
  rw [hzeq]
  exact List.getLast_mem hne

theorem rowLe_same_key {k2 : String} {x y : Row} {e : Value}
    (hx : Row.get x eidCol = e) (hy : Row.get y eidCol = e)
    (hR : RowLe eidCol k2 x y) : Value.le (Row.get x k2) (Row.get y k2) = true := by
  unfold RowLe rowLeB at hR
  simp only [Bool.or_eq_true, Bool.and_eq_true, Bool.not_eq_true', decide_eq_true_eq] at hR
  rcases hR with ⟨h1, h2⟩ | ⟨_, h2⟩
  · rw [hx, hy] at h2
    rw [Value.le_refl] at h2
    cases h2
  · exact h2

/-- For a usable table with the ordering column present, the rows the
utils variant returns for entity `e` are the last element of the stable
sort of `e`'s coerced records. -/
theorem rowsFor_latest_present (df : DataFrame) (dateCol : String)
    (hne : df.rows.isEmpty = false) (hid : df.cols.contains eidCol = true)
    (hdc : df.cols.contains dateCol = true) (hdne : dateCol ≠ eidCol)
    (e : Value) (he : isNaKey e = false) :
    rowsFor e (latest_per_employee (some df) dateCol) =
      ((List.insertionSort (RowLe eidCol dateCol)
        ((df.rows.filter (fun r => decide (Row.get r eidCol = e))).map
          (fun r => r.setEntry dateCol (toDatetime (Row.get r dateCol))))).getLast?).toList := by
  unfold rowsFor
  rw [latest_per_employee_present df dateCol hne hid hdc]
  show (tailPerGroup _).filter _ = _
  rw [tailPerGroup_filter e he, filter_insertionSort]
  have hrows : (df.mapCol dateCol toDatetime).rows =
      df.rows.map (fun r => r.setEntry dateCol (toDatetime (Row.get r dateCol))) := rfl
  have hfc : df.rows.filter ((fun r => decide (Row.get r eidCol = e)) ∘
      (fun r => r.setEntry dateCol (toDatetime (Row.get r dateCol)))) =
      df.rows.filter (fun r => decide (Row.get r eidCol = e)) :=
    List.filter_congr (fun r _ => by
      simp only [Function.comp]
      rw [Row.get_setEntry_ne r dateCol eidCol _ (fun hh => hdne hh.symm)])
  rw [hrows, List.filter_map, hfc]

/-- Same for the app variant: no coercion happens. -/
theorem rowsFor_latest_app (df : DataFrame) (dateCol : String)
    (hne : df.rows.isEmpty = false) (hid : df.cols.contains eidCol = true)
    (hdc : df.cols.contains dateCol = true)
    (e : Value) (he : isNaKey e = false) :
    latest_per_employee_app df dateCol =
      .ok ⟨df.cols, tailPerGroup (List.insertionSort (RowLe eidCol dateCol) df.rows)⟩ ∧
    ∀ out, latest_per_employee_app df dateCol = .ok out →
      rowsFor e out =
        ((List.insertionSort (RowLe eidCol dateCol)
          (df.rows.filter (fun r => decide (Row.get r eidCol = e)))).getLast?).toList := by
  have hmain : latest_per_employee_app df dateCol =
      .ok ⟨df.cols, tailPerGroup (List.insertionSort (RowLe eidCol dateCol) df.rows)⟩ := by
    unfold latest_per_employee_app
    rw [if_neg (by rw [hne]; simp), if_pos hdc]
    simp only []
    rw [if_neg (by rw [hid]; simp)]
    rfl
  refine ⟨hmain, ?_⟩
  intro out hout
  rw [hmain] at hout
  cases hout
  unfold rowsFor
  show (tailPerGroup _).filter _ = _
  rw [tailPerGroup_filter e he, filter_insertionSort]

/-- The last element of the stably sorted class of three records whose
ordering values are timestamps T1 ≤ T2 < T3 is the third record. -/
theorem insertionSort_getLast_strict_max (k2 : String) (e : Value) (l : List Row)
    (a b z3 : Row) (hperm : l.Perm [a, b, z3])
    (hka : Row.get a eidCol = e) (hkb : Row.get b eidCol = e) (hk3 : Row.get z3 eidCol = e)
    (ya ma da yb mb db y3 m3 d3 : Int)
    (hda : Row.get a k2 = Value.date ya ma da)
    (hdb : Row.get b k2 = Value.date yb mb db)
    (hd3 : Row.get z3 k2 = Value.date y3 m3 d3)
    (hab : dateLe ya ma da yb mb db = true)
    (h3b : dateLe y3 m3 d3 yb mb db = false) :
    ((List.insertionSort (RowLe eidCol k2) l).getLast?).toList = [z3] := by
  have hm : (List.insertionSort (RowLe eidCol k2) l).Perm [a, b, z3] :=
    (List.perm_insertionSort _ l).trans hperm
  have hsorted := List.sorted_insertionSort (RowLe eidCol k2) l
  cases hz : (List.insertionSort (RowLe eidCol k2) l).getLast? with
  | none =>
    have hlen := hm.length_eq
    rw [List.getLast?_eq_none_iff.mp hz] at hlen
    cases hlen
  | some z =>
    have hz3mem : z3 ∈ List.insertionSort (RowLe eidCol k2) l :=
      hm.mem_iff.mpr (by simp)
    have hzmem : z ∈ ([a, b, z3] : List Row) :=
      hm.mem_iff.mp (mem_of_getLast?_eq_some hz)
    have hrel := sorted_getLast_rel (RowLe eidCol k2) _ hsorted z3 hz3mem z hz
    have hzk2 : Value.le (Value.date y3 m3 d3) (Row.get z k2) = true := by
      rcases hrel with heq | hR
      · rw [← heq, hd3]
        exact Value.le_refl _
      · have hkz : Row.get z eidCol = e := by
          simp only [List.mem_cons, List.mem_singleton, List.not_mem_nil, or_false] at hzmem
          rcases hzmem with rfl | rfl | rfl
          · exact hka
          · exact hkb
          · exact hk3
        have := rowLe_same_key hk3 hkz hR
        rwa [hd3] at this
    have hz3 : z = z3 := by
      simp only [List.mem_cons, List.mem_singleton, List.not_mem_nil, or_false] at hzmem
      rcases hzmem with rfl | rfl | rfl
      · rw [hda] at hzk2
        have h3a : dateLe y3 m3 d3 ya ma da = true := by simpa [Value.le] using hzk2
        rw [dateLe_trans h3a hab] at h3b
        cases h3b
      · rw [hdb] at hzk2
        have h3b2 : dateLe y3 m3 d3 yb mb db = true := by simpa [Value.le] using hzk2
        rw [h3b2] at h3b
        cases h3b
      · rfl
    rw [hz3]
    rfl

/-! ### C7: records with unparseable timestamps -/

theorem toDatetime_range (v : Value) :
    toDatetime v = Value.naT ∨ ∃ y m d, toDatetime v = Value.date y m d := by
  cases v with
  | str s =>
    cases hp : parseDate s with
    | none => left; simp [toDatetime, hp]
    | some t => right; exact ⟨t.1, t.2.1, t.2.2, by simp [toDatetime, hp]⟩
  | date y m d => right; exact ⟨y, m, d, rfl⟩
  | int n => left; rfl
  | frac n d => left; rfl
  | naT => left; rfl
  | na => left; rfl

/-- In a class whose ordering cells are timestamps or `NaT`, the stably
sorted last element is a `NaT` record whenever any `NaT` record exists:
`NaT` sorts after every timestamp (`na_position="last"`). -/
theorem insertionSort_getLast_naT (k2 : String) (e : Value) (l : List Row)
    (hkeys : ∀ x ∈ l, Row.get x eidCol = e)
    (hvals : ∀ x ∈ l, Row.get x k2 = Value.naT ∨ ∃ y m d, Row.get x k2 = Value.date y m d)
    (x0 : Row) (hx0 : x0 ∈ l) (hx0n : Row.get x0 k2 = Value.naT) :
    ∃ z, ((List.insertionSort (RowLe eidCol k2) l).getLast?).toList = [z] ∧
      Row.get z k2 = Value.naT := by
  have hm : (List.insertionSort (RowLe eidCol k2) l).Perm l := List.perm_insertionSort _ l
  have hsorted := List.sorted_insertionSort (RowLe eidCol k2) l
  cases hz : (List.insertionSort (RowLe eidCol k2) l).getLast? with
  | none =>
    have hnil := List.getLast?_eq_none_iff.mp hz
    rw [hnil] at hm
    rw [hm.symm.eq_nil] at hx0
    cases hx0
  | some z =>
    refine ⟨z, rfl, ?_⟩
    have hx0m : x0 ∈ List.insertionSort (RowLe eidCol k2) l := hm.mem_iff.mpr hx0
    have hzl : z ∈ l := hm.mem_iff.mp (mem_of_getLast?_eq_some hz)
    rcases sorted_getLast_rel (RowLe eidCol k2) _ hsorted x0 hx0m z hz with heq | hR
    · rw [← heq]
      exact hx0n
    · have hle := rowLe_same_key (hkeys x0 hx0) (hkeys z hzl) hR
      rw [hx0n] at hle
      rcases hvals z hzl with hn | ⟨y, m, d, hd⟩
      · exact hn
      · rw [hd] at hle
        simp [Value.le, Value.rank] at hle

/-- C7 (counterexample): entity 1 has a record at a parseable timestamp
(2020-01-01, payload 100) and a record with an unparseable ordering value
("garbage", payload 200); the utils variant selects the unparseable
record even though a parseable one exists, because `NaT` sorts last, not
as the minimum sentinel. -/
theorem C7_counterexample :
    (latest_per_employee (some ⟨[eidCol, ("from_date"), ("amount")],
      [[(eidCol, Value.int 1), (("from_date"), Value.date 2020 1 1),
        (("amount"), Value.int 100)],
       [(eidCol, Value.int 1), (("from_date"), Value.str ("garbage")),
        (("amount"), Value.int 200)]]⟩)
      ("from_date")).rows.map (fun r => Row.get r ("amount")) = [Value.int 200] := by decide

/-- C7 (amended): a record whose ordering value is unparseable is not
dropped: it is coerced to `NaT`, which sorts after every parseable
timestamp, so whenever an entity has any unparseable record the record
selected for that entity is an unparseable one — even when parseable
records exist. -/
theorem C7_amended_invalid_timestamps (df : DataFrame) (dateCol : String)
    (hid : df.cols.contains eidCol = true) (hdc : df.cols.contains dateCol = true)
    (hdne : dateCol ≠ eidCol) (e : Value) (he : isNaKey e = false)
    (x0 : Row) (hx0 : x0 ∈ df.rows) (hx0k : Row.get x0 eidCol = e)
    (hx0n : toDatetime (Row.get x0 dateCol) = Value.naT) :
    ∃ z, rowsFor e (latest_per_employee (some df) dateCol) = [z] ∧
      Row.get z dateCol = Value.naT := by
  have hne : df.rows.isEmpty = false := by
    cases hrows : df.rows with
    | nil => rw [hrows] at hx0; cases hx0
    | cons _ _ => rfl
  rw [rowsFor_latest_present df dateCol hne hid hdc hdne e he]
  refine insertionSort_getLast_naT dateCol e _ ?_ ?_
    (x0.setEntry dateCol (toDatetime (Row.get x0 dateCol))) ?_ ?_
  · intro x hx
    rcases List.mem_map.mp hx with ⟨r, hr, rfl⟩
    rw [Row.get_setEntry_ne r dateCol eidCol _ (fun hh => hdne hh.symm)]
    simpa using (List.mem_filter.mp hr).2
  · intro x hx
    rcases List.mem_map.mp hx with ⟨r, _, rfl⟩
    rw [Row.get_setEntry_same]
    exact toDatetime_range (Row.get r dateCol)
  · exact List.mem_map.mpr ⟨x0, List.mem_filter.mpr ⟨hx0, by simpa using hx0k⟩, rfl⟩
  · rw [Row.get_setEntry_same]
    exact hx0n

/-- Witness for C7 (amended) at the two-record table of the
counterexample: the selected record's coerced ordering value is `NaT`. -/
theorem C7_amended_invalid_timestamps_witness :
    ∃ z, rowsFor (Value.int 1) (latest_per_employee (some ⟨[eidCol, ("from_date"), ("amount")],
      [[(eidCol, Value.int 1), (("from_date"), Value.date 2020 1 1),
        (("amount"), Value.int 100)],
       [(eidCol, Value.int 1), (("from_date"), Value.str ("garbage")),
        (("amount"), Value.int 200)]]⟩) ("from_date")) = [z] ∧
      Row.get z ("from_date") = Value.naT := by
  refine C7_amended_invalid_timestamps _ ("from_date") (by decide) (by decide) (by decide)
    (Value.int 1) (by decide)
    [(eidCol, Value.int 1), (("from_date"), Value.str ("garbage")), (("amount"), Value.int 200)]
    (by decide) (by decide) (by decide)

/-! ### C1: latest-wins selection -/

/-- C1: for an entity with exactly three records at timestamps
T1 ≤ T2 < T3 carrying payloads A/B/C, both `latest_per_employee`
variants select the T3 record — payload C — for that entity, whatever
the order of the input rows (the class hypothesis is a permutation). -/
theorem C1_latest_wins (df : DataFrame) (dateCol pcol : String)
    (hid : df.cols.contains eidCol = true) (hdc : df.cols.contains dateCol = true)
    (hdne : dateCol ≠ eidCol) (hpne : pcol ≠ dateCol)
    (e : Value) (he : isNaKey e = false) (r1 r2 r3 : Row)
    (y1 m1 d1 y2 m2 d2 y3 m3 d3 : Int)
    (hg1 : Row.get r1 dateCol = Value.date y1 m1 d1)
    (hg2 : Row.get r2 dateCol = Value.date y2 m2 d2)
    (hg3 : Row.get r3 dateCol = Value.date y3 m3 d3)
    (h12 : dateLe y1 m1 d1 y2 m2 d2 = true)
    (h32 : dateLe y3 m3 d3 y2 m2 d2 = false)
    (hperm : (df.rows.filter (fun r => decide (Row.get r eidCol = e))).Perm [r1, r2, r3]) :
    (rowsFor e (latest_per_employee (some df) dateCol)).map (fun r => Row.get r pcol)
        = [Row.get r3 pcol] ∧
    ∀ out, latest_per_employee_app df dateCol = .ok out → rowsFor e out = [r3] := by
  have hne : df.rows.isEmpty = false := by
    cases hrows : df.rows with
    | nil =>
      rw [hrows] at hperm
      have := hperm.length_eq
      simp [List.filter] at this
    | cons _ _ => rfl
  have hmemf : ∀ r ∈ ([r1, r2, r3] : List Row), Row.get r eidCol = e := by
    intro r hr
    have := (List.mem_filter.mp (hperm.mem_iff.mpr hr)).2
    simpa using this
  have hk1 : Row.get r1 eidCol = e := hmemf r1 (by simp)
  have hk2 : Row.get r2 eidCol = e := hmemf r2 (by simp)
  have hk3 : Row.get r3 eidCol = e := hmemf r3 (by simp)
  constructor
  · rw [rowsFor_latest_present df dateCol hne hid hdc hdne e he]
    have hmax := insertionSort_getLast_strict_max dateCol e
      ((df.rows.filter (fun r => decide (Row.get r eidCol = e))).map
        (fun r => r.setEntry dateCol (toDatetime (Row.get r dateCol))))
      (r1.setEntry dateCol (toDatetime (Row.get r1 dateCol)))
      (r2.setEntry dateCol (toDatetime (Row.get r2 dateCol)))
      (r3.setEntry dateCol (toDatetime (Row.get r3 dateCol)))
      (by simpa using hperm.map (fun r => r.setEntry dateCol (toDatetime (Row.get r dateCol))))
      (by rw [Row.get_setEntry_ne r1 dateCol eidCol _ (fun hh => hdne hh.symm)]; exact hk1)
      (by rw [Row.get_setEntry_ne r2 dateCol eidCol _ (fun hh => hdne hh.symm)]; exact hk2)
      (by rw [Row.get_setEntry_ne r3 dateCol eidCol _ (fun hh => hdne hh.symm)]; exact hk3)
      y1 m1 d1 y2 m2 d2 y3 m3 d3
      (by rw [Row.get_setEntry_same, hg1]; rfl)
      (by rw [Row.get_setEntry_same, hg2]; rfl)
      (by rw [Row.get_setEntry_same, hg3]; rfl)
      h12 h32
    rw [hmax, List.map_cons, List.map_nil,
      Row.get_setEntry_ne r3 dateCol pcol _ hpne]
  · intro out hout
    rw [(rowsFor_latest_app df dateCol hne hid hdc e he).2 out hout]
    exact insertionSort_getLast_strict_max dateCol e _ r1 r2 r3 hperm hk1 hk2 hk3
      y1 m1 d1 y2 m2 d2 y3 m3 d3 hg1 hg2 hg3 h12 h32

/-- Witness for C1: entity 1 has records A (2020), B (2021), C (2022)
in scrambled input order interleaved with another entity; both variants
select payload C. -/
theorem C1_latest_wins_witness :
    (rowsFor (Value.int 1) (latest_per_employee (some ⟨[eidCol, ("from_date"), ("amount")],
        [[(eidCol, Value.int 1), (("from_date"), Value.date 2022 1 1),
          (("amount"), Value.str ("C"))],
         [(eidCol, Value.int 2), (("from_date"), Value.date 2019 1 1),
          (("amount"), Value.str ("X"))],
         [(eidCol, Value.int 1), (("from_date"), Value.date 2020 1 1),
          (("amount"), Value.str ("A"))],
         [(eidCol, Value.int 1), (("from_date"), Value.date 2021 1 1),
          (("amount"), Value.str ("B"))]]⟩) ("from_date"))).map
      (fun r => Row.get r ("amount")) = [Value.str ("C")] := by
  have h := C1_latest_wins ⟨[eidCol, ("from_date"), ("amount")],
      [[(eidCol, Value.int 1), (("from_date"), Value.date 2022 1 1),
        (("amount"), Value.str ("C"))],
       [(eidCol, Value.int 2), (("from_date"), Value.date 2019 1 1),
        (("amount"), Value.str ("X"))],
       [(eidCol, Value.int 1), (("from_date"), Value.date 2020 1 1),
        (("amount"), Value.str ("A"))],
       [(eidCol, Value.int 1), (("from_date"), Value.date 2021 1 1),
        (("amount"), Value.str ("B"))]]⟩ ("from_date") ("amount")
    (by decide) (by decide) (by decide) (by decide) (Value.int 1) (by decide)
    [(eidCol, Value.int 1), (("from_date"), Value.date 2020 1 1), (("amount"), Value.str ("A"))]
    [(eidCol, Value.int 1), (("from_date"), Value.date 2021 1 1), (("amount"), Value.str ("B"))]
    [(eidCol, Value.int 1), (("from_date"), Value.date 2022 1 1), (("amount"), Value.str ("C"))]
    2020 1 1 2021 1 1 2022 1 1
    (by decide) (by decide) (by decide) (by decide) (by decide) (by decide)
  rw [h.1]
  decide

/-! ### C9: stable tie-break -/

/-- C9: when an entity's two records carry equal ordering timestamps,
both variants select the record that appears later in the input's
original row order, by stability of the sort. -/
theorem C9_stable_tie_break (df : DataFrame) (dateCol : String)
    (hid : df.cols.contains eidCol = true) (hdc : df.cols.contains dateCol = true)
    (hdne : dateCol ≠ eidCol) (e : Value) (he : isNaKey e = false)
    (r1 r2 : Row) (y m d : Int)
    (hg1 : Row.get r1 dateCol = Value.date y m d)
    (hg2 : Row.get r2 dateCol = Value.date y m d)
    (hfil : df.rows.filter (fun r => decide (Row.get r eidCol = e)) = [r1, r2]) :
    rowsFor e (latest_per_employee (some df) dateCol) =
      [r2.setEntry dateCol (Value.date y m d)] ∧
    ∀ out, latest_per_employee_app df dateCol = .ok out → rowsFor e out = [r2] := by
  have hne : df.rows.isEmpty = false := by
    cases hrows : df.rows with
    | nil => rw [hrows] at hfil; cases hfil
    | cons _ _ => rfl
  have hk1 : Row.get r1 eidCol = e := by
    have : r1 ∈ df.rows.filter (fun r => decide (Row.get r eidCol = e)) := by
      rw [hfil]; simp
    simpa using (List.mem_filter.mp this).2
  have hk2 : Row.get r2 eidCol = e := by
    have : r2 ∈ df.rows.filter (fun r => decide (Row.get r eidCol = e)) := by
      rw [hfil]; simp
    simpa using (List.mem_filter.mp this).2
  constructor
  · rw [rowsFor_latest_present df dateCol hne hid hdc hdne e he, hfil]
    have hR : RowLe eidCol dateCol (r1.setEntry dateCol (toDatetime (Row.get r1 dateCol)))
        (r2.setEntry dateCol (toDatetime (Row.get r2 dateCol))) := by
      unfold RowLe rowLeB
      rw [Row.get_setEntry_ne r1 dateCol eidCol _ (fun hh => hdne hh.symm),
        Row.get_setEntry_ne r2 dateCol eidCol _ (fun hh => hdne hh.symm), hk1, hk2,
        Row.get_setEntry_same, Row.get_setEntry_same, hg1, hg2]
      simp [Value.le_refl]
    simp only [List.map_cons, List.map_nil, List.insertionSort, List.orderedInsert,
      if_pos hR]
    rw [hg2]
    rfl
  · intro out hout
    rw [(rowsFor_latest_app df dateCol hne hid hdc e he).2 out hout, hfil]
    have hR : RowLe eidCol dateCol r1 r2 := by
      unfold RowLe rowLeB
      rw [hk1, hk2, hg1, hg2]
      simp [Value.le_refl]
    simp only [List.insertionSort, List.orderedInsert, if_pos hR]
    rfl

/-- Witness for C9: two records of entity 1 share the timestamp
2020-01-01; the second input record (payload 2) is chosen. -/
theorem C9_stable_tie_break_witness :
    rowsFor (Value.int 1) (latest_per_employee (some ⟨[eidCol, ("from_date"), ("amount")],
        [[(eidCol, Value.int 1), (("from_date"), Value.date 2020 1 1),
          (("amount"), Value.int 1)],
         [(eidCol, Value.int 1), (("from_date"), Value.date 2020 1 1),
          (("amount"), Value.int 2)]]⟩) ("from_date")) =
      [[(eidCol, Value.int 1), (("from_date"), Value.date 2020 1 1),
        (("amount"), Value.int 2)]] := by
  have h := C9_stable_tie_break ⟨[eidCol, ("from_date"), ("amount")],
      [[(eidCol, Value.int 1), (("from_date"), Value.date 2020 1 1),
        (("amount"), Value.int 1)],
       [(eidCol, Value.int 1), (("from_date"), Value.date 2020 1 1),
        (("amount"), Value.int 2)]]⟩ ("from_date")
    (by decide) (by decide) (by decide) (Value.int 1) (by decide)
    [(eidCol, Value.int 1), (("from_date"), Value.date 2020 1 1), (("amount"), Value.int 1)]
    [(eidCol, Value.int 1), (("from_date"), Value.date 2020 1 1), (("amount"), Value.int 2)]
    2020 1 1 (by decide) (by decide) (by decide)
  rw [h.1]
  decide

/-! ### C5: determinism and the internal wall clock -/

/-- C5 (counterexample): `load_data` reads the wall clock internally;
with identical input tables, two calls whose internal
`pd.Timestamp.today()` readings differ (2026-01-10 versus 2026-06-10)
produce different snapshots — the tenure cell is 8140/1461 years in one
and 8744/1461 years in the other — so the output is not a function of
the inputs alone and no single caller-supplied instant exists. -/
theorem C5_counterexample :
    ((snapOf (load_data c5Tables 2026 (2026, 1, 10))).rows.map
        (fun r => Row.get r ("company_tenure")) = [Value.frac 8140 1461]) ∧
    ((snapOf (load_data c5Tables 2026 (2026, 6, 10))).rows.map
        (fun r => Row.get r ("company_tenure")) = [Value.frac 8744 1461]) ∧
    snapOf (load_data c5Tables 2026 (2026, 1, 10)) ≠
      snapOf (load_data c5Tables 2026 (2026, 6, 10)) := by
  have h1 : (snapOf (load_data c5Tables 2026 (2026, 1, 10))).rows.map
      (fun r => Row.get r ("company_tenure")) = [Value.frac 8140 1461] := by decide
  have h2 : (snapOf (load_data c5Tables 2026 (2026, 6, 10))).rows.map
      (fun r => Row.get r ("company_tenure")) = [Value.frac 8744 1461] := by decide
  refine ⟨h1, h2, ?_⟩
  intro heq
  rw [heq, h2] at h1
  cases h1

/-- C5 (amended): the reconciliation is deterministic once the two
internal wall-clock readings are fixed: `load_data` invoked twice with
identical tables, the same `datetime.now().year` reading and the same
`pd.Timestamp.today()` reading yields identical output. -/
theorem C5_amended_determinism (t1 t2 : Tables) (y1 y2 : Int) (d1 d2 : Int × Int × Int)
    (ht : t1 = t2) (hy : y1 = y2) (hd : d1 = d2) :
    load_data t1 y1 d1 = load_data t2 y2 d2 := by
  rw [ht, hy, hd]

/-- Witness for C5 (amended) at the fixture tables. -/
theorem C5_amended_determinism_witness :
    load_data c5Tables 2026 (2026, 1, 10) = load_data c5Tables 2026 (2026, 1, 10) :=
  C5_amended_determinism c5Tables c5Tables 2026 2026 (2026, 1, 10) (2026, 1, 10) rfl rfl rfl

/-! ### C8: column completeness of the guarded snapshot -/

theorem DataFrame.setCol_cols_mem (df : DataFrame) (c : String) (v : Value) (c' : String)
    (h : c' ∈ df.cols) : c' ∈ (df.setCol c v).cols := by
  simp only [DataFrame.setCol]
  by_cases hc : df.cols.contains c = true
  · rw [if_pos hc]; exact h
  · rw [if_neg hc]; exact List.mem_append_left _ h

theorem DataFrame.setCol_cols_self (df : DataFrame) (c : String) (v : Value) :
    c ∈ (df.setCol c v).cols := by
  simp only [DataFrame.setCol]
  by_cases hc : df.cols.contains c = true
  · rw [if_pos hc]; simpa using hc
  · rw [if_neg hc]; simp

theorem DataFrame.setCol_not_contains (df : DataFrame) (c : String) (v : Value) (c' : String)
    (hne : c' ≠ c) (h : df.cols.contains c' = false) :
    (df.setCol c v).cols.contains c' = false := by
  simp only [DataFrame.setCol]
  by_cases hc : df.cols.contains c = true
  · rw [if_pos hc]; exact h
  · rw [if_neg hc]
    have h1 : c' ∉ df.cols := by simpa using h
    have : c' ∉ df.cols ++ [c] := by
      intro hm
      rcases List.mem_append.mp hm with hmm | hmm
      · exact h1 hmm
      · exact hne (List.mem_singleton.mp hmm)
    simpa using this

theorem ensure_preserves_mem (L : List String) (s : DataFrame) (c : String) (h : c ∈ s.cols) :
    c ∈ (L.foldl (fun d c2 => if d.cols.contains c2 then d else d.setCol c2 Value.na) s).cols := by
  induction L generalizing s with
  | nil => exact h
  | cons a L ih =>
    simp only [List.foldl_cons]
    apply ih
    by_cases ha : s.cols.contains a = true
    · rw [if_pos ha]; exact h
    · rw [if_neg ha]; exact DataFrame.setCol_cols_mem s a Value.na c h

theorem ensure_mem (L : List String) (s : DataFrame) (c : String) (hc : c ∈ L) :
    c ∈ (L.foldl (fun d c2 => if d.cols.contains c2 then d else d.setCol c2 Value.na) s).cols := by
  induction L generalizing s with
  | nil => cases hc
  | cons a L ih =>
    simp only [List.foldl_cons]
    rcases List.mem_cons.mp hc with rfl | hcl
    · apply ensure_preserves_mem
      by_cases ha : s.cols.contains c = true
      · rw [if_pos ha]; simpa using ha
      · rw [if_neg ha]; exact DataFrame.setCol_cols_self s c Value.na
    · exact ih _ hcl

theorem ensure_preserves_na (L : List String) (s : DataFrame) (c : String)
    (hp : ∀ r ∈ s.rows, Row.get r c = Value.na) :
    ∀ r ∈ (L.foldl (fun d c2 => if d.cols.contains c2 then d else d.setCol c2 Value.na) s).rows,
      Row.get r c = Value.na := by
  induction L generalizing s with
  | nil => exact hp
  | cons a L ih =>
    simp only [List.foldl_cons]
    apply ih
    by_cases ha : s.cols.contains a = true
    · rw [if_pos ha]; exact hp
    · rw [if_neg ha]
      intro r hr
      simp only [DataFrame.setCol] at hr
      rcases List.mem_map.mp hr with ⟨r0, hr0, rfl⟩
      by_cases hac : a = c
      · rw [hac, Row.get_setEntry_same]
      · rw [Row.get_setEntry_ne r0 a c Value.na (fun hh => hac hh.symm)]
        exact hp r0 hr0

theorem ensure_na_of_missing (L : List String) (s : DataFrame) (c : String) (hc : c ∈ L)
    (hmiss : s.cols.contains c = false) :
    ∀ r ∈ (L.foldl (fun d c2 => if d.cols.contains c2 then d else d.setCol c2 Value.na) s).rows,
      Row.get r c = Value.na := by
  induction L generalizing s with
  | nil => cases hc
  | cons a L ih =>
    simp only [List.foldl_cons]
    by_cases hac : a = c
    · rw [hac, if_neg (by rw [hmiss]; simp)]
      apply ensure_preserves_na
      intro r hr
      simp only [DataFrame.setCol] at hr
      rcases List.mem_map.mp hr with ⟨r0, _, rfl⟩
      rw [Row.get_setEntry_same]
    · rcases List.mem_cons.mp hc with rfl | hcl
      · exact absurd rfl hac
      · by_cases ha : s.cols.contains a = true
        · rw [if_pos ha]
          exact ih s hcl hmiss
        · rw [if_neg ha]
          exact ih _ hcl (DataFrame.setCol_not_contains s a Value.na c
            (fun hh => hac hh.symm) hmiss)

/-- C8: after the module-level guard loop, every requested attribute name
(`dept_name`, `title`, `company_tenure`, `age`, `latest_salary`) is a
column of the snapshot produced by a successful `load_data` call, and a
name no source contributed is a whole column of the NaN "unknown"
marker rather than an omission. -/
theorem C8_column_completeness (t : Tables) (nowYear : Int) (today : Int × Int × Int)
    (_hok : (load_data t nowYear today).isOk = true) :
    (∀ c ∈ snapshotGuardCols,
      c ∈ (ensureSnapshotCols (snapOf (load_data t nowYear today))).cols) ∧
    (∀ c ∈ snapshotGuardCols,
      (snapOf (load_data t nowYear today)).cols.contains c = false →
      ∀ r ∈ (ensureSnapshotCols (snapOf (load_data t nowYear today))).rows,
        Row.get r c = Value.na) := by
  constructor
  · intro c hc
    exact ensure_mem snapshotGuardCols _ c hc
  · intro c hc hmiss
    exact ensure_na_of_missing snapshotGuardCols _ c hc hmiss

/-- Witness for C8: a call whose snapshot lacks `dept_name` and `title`;
the guard loop adds them as NaN columns, and all five names are present
afterwards. -/
theorem C8_column_completeness_witness :
    (∀ c ∈ snapshotGuardCols,
      c ∈ (ensureSnapshotCols (snapOf (load_data
        (Tables.mk DataFrame.empty ⟨[("id")], [[(("id"), Value.int 1)]]⟩
          ⟨[eidCol], [[(eidCol, Value.int 1)]]⟩
          DataFrame.empty DataFrame.empty DataFrame.empty DataFrame.empty)
        2026 (2026, 1, 1)))).cols) ∧
    (∀ r ∈ (ensureSnapshotCols (snapOf (load_data
        (Tables.mk DataFrame.empty ⟨[("id")], [[(("id"), Value.int 1)]]⟩
          ⟨[eidCol], [[(eidCol, Value.int 1)]]⟩
          DataFrame.empty DataFrame.empty DataFrame.empty DataFrame.empty)
        2026 (2026, 1, 1)))).rows, Row.get r ("dept_name") = Value.na) := by
  have h := C8_column_completeness
    (Tables.mk DataFrame.empty ⟨[("id")], [[(("id"), Value.int 1)]]⟩
      ⟨[eidCol], [[(eidCol, Value.int 1)]]⟩
      DataFrame.empty DataFrame.empty DataFrame.empty DataFrame.empty)
    2026 (2026, 1, 1) (by decide)
  exact ⟨h.1, h.2 ("dept_name") (by decide) (by decide)⟩

/-! ### Merge lemmas -/

/-- A column label no `pd.merge` suffixing can produce. -/
def safeName (c : String) : Prop :=
  (∀ d : String, sufX d ≠ c) ∧ (∀ d : String, sufY d ≠ c)

theorem sufX_last (d : String) : (sufX d).data.getLast? = some 'x' := by
  show (d ++ ("_x")).data.getLast? = some 'x'
  rw [String.data_append, show ("_x").data = '_' :: ['x'] from rfl, List.getLast?_append_cons]
  rfl

theorem sufY_last (d : String) : (sufY d).data.getLast? = some 'y' := by
  show (d ++ ("_y")).data.getLast? = some 'y'
  rw [String.data_append, show ("_y").data = '_' :: ['y'] from rfl, List.getLast?_append_cons]
  rfl

theorem safeName_of_last (c : String) (hx : c.data.getLast? ≠ some 'x')
    (hy : c.data.getLast? ≠ some 'y') : safeName c := by
  constructor
  · intro d heq
    exact hx (heq ▸ sufX_last d)
  · intro d heq
    exact hy (heq ▸ sufY_last d)

theorem safeName_eid : safeName eidCol :=
  safeName_of_last eidCol (by decide) (by decide)

theorem safeName_dept_name : safeName ("dept_name") :=
  safeName_of_last ("dept_name") (by decide) (by decide)

theorem Row.get_mergeLRow (l r : DataFrame) (key : String) (lr : Row) (c : String)
    (hov : mergeOverlap l r key c = false) (hs : safeName c) :
    Row.get (mergeLRow l r key lr) c = Row.get lr c := by
  induction lr with
  | nil => rfl
  | cons p t ih =>
    by_cases hp : mergeOverlap l r key p.1 = true
    · have hp1 : p.1 ≠ c := by
        intro hh
        rw [hh, hov] at hp
        cases hp
      simp only [mergeLRow, List.map_cons, if_pos hp]
      rw [Row.get_cons, Row.get_cons, if_neg (hs.1 p.1), if_neg hp1]
      exact ih
    · simp only [mergeLRow, List.map_cons, if_neg hp]
      rw [Row.get_cons, Row.get_cons]
      by_cases hp1 : p.1 = c
      · rw [if_pos hp1, if_pos hp1]
      · rw [if_neg hp1, if_neg hp1]
        exact ih

theorem Row.carries_mergeLRow (l r : DataFrame) (key : String) (lr : Row) (c : String)
    (hov : mergeOverlap l r key c = false) (hs : safeName c) :
    Row.carries (mergeLRow l r key lr) c = Row.carries lr c := by
  induction lr with
  | nil => rfl
  | cons p t ih =>
    simp only [mergeLRow, List.map_cons] at ih ⊢
    by_cases hp : mergeOverlap l r key p.1 = true
    · have hp1 : p.1 ≠ c := by
        intro hh
        rw [hh, hov] at hp
        cases hp
      rw [if_pos hp]
      simp only [Row.carries, decide_eq_false (hs.1 p.1), decide_eq_false hp1, Bool.false_or]
      exact ih
    · rw [if_neg hp]
      simp only [Row.carries]
      rw [ih]

theorem Row.carries_of_no_name (row : Row) (c : String) (h : ∀ p ∈ row, p.1 ≠ c) :
    Row.carries row c = false := by
  induction row with
  | nil => rfl
  | cons p t ih =>
    simp only [Row.carries, decide_eq_false (h p (by simp)), Bool.false_or]
    exact ih fun q hq => h q (List.mem_cons_of_mem p hq)

theorem rCellName_ne (l r : DataFrame) (key c d : String)
    (hs : safeName c) (hone : c = key ∨ r.cols.contains c = false)
    (hd : d ∈ List.filter (fun c2 => !(decide (c2 = key))) r.cols) :
    (if l.cols.contains d = true then sufY d else d) ≠ c := by
  have hd2 := List.mem_filter.mp hd
  by_cases hld : l.cols.contains d = true
  · rw [if_pos hld]
    exact hs.2 d
  · rw [if_neg hld]
    intro hh
    rcases hone with rfl | hcr
    · rw [hh] at hd2
      simp at hd2
    · rw [hh] at hd2
      exact absurd hd2.1 (by simpa using hcr)

theorem carries_mergeRRow_false (l r : DataFrame) (key : String) (rr : Row) (c : String)
    (hs : safeName c) (hone : c = key ∨ r.cols.contains c = false) :
    Row.carries (mergeRRow l r key rr) c = false := by
  apply Row.carries_of_no_name
  intro p hp
  rcases List.mem_map.mp hp with ⟨d, hd, rfl⟩
  exact rCellName_ne l r key c d hs hone hd

theorem carries_mergeFill_false (l r : DataFrame) (key : String) (c : String)
    (hs : safeName c) (hone : c = key ∨ r.cols.contains c = false) :
    Row.carries (mergeFill l r key) c = false := by
  apply Row.carries_of_no_name
  intro p hp
  rcases List.mem_map.mp hp with ⟨d, hd, rfl⟩
  exact rCellName_ne l r key c d hs hone hd

theorem Row.get_of_all_na (row : Row) (c : String) (h : ∀ p ∈ row, p.2 = Value.na) :
    Row.get row c = Value.na := by
  induction row with
  | nil => rfl
  | cons p t ih =>
    rw [Row.get_cons]
    by_cases hp : p.1 = c
    · rw [if_pos hp]
      exact h p (by simp)
    · rw [if_neg hp]
      exact ih fun q hq => h q (List.mem_cons_of_mem p hq)

theorem get_mergeFill_na (l r : DataFrame) (key c : String) :
    Row.get (mergeFill l r key) c = Value.na := by
  apply Row.get_of_all_na
  intro p hp
  rcases List.mem_map.mp hp with ⟨d, hd, rfl⟩
  rfl

theorem get_named_map (rr : Row) (c : String) (nameF : String → String)
    (cs : List String) (hmem : c ∈ cs)
    (hself : nameF c = c) (hinj : ∀ d ∈ cs, nameF d = c → d = c) :
    Row.get (cs.map (fun d => (nameF d, Row.get rr d))) c = Row.get rr c := by
  induction cs with
  | nil => cases hmem
  | cons d t ih =>
    rw [List.map_cons, Row.get_cons]
    by_cases hd : nameF d = c
    · have hdc : d = c := hinj d (by simp) hd
      rw [if_pos hd, hdc]
    · rw [if_neg hd]
      have hmem2 : c ∈ t := by
        rcases List.mem_cons.mp hmem with rfl | h
        · exact absurd hself hd
        · exact h
      exact ih hmem2 fun d2 hd2 h2 => hinj d2 (List.mem_cons_of_mem d hd2) h2

theorem get_mergeRRow_of_mem (l r : DataFrame) (key : String) (rr : Row) (c : String)
    (hs : safeName c) (hck : c ≠ key) (hcl : l.cols.contains c = false)
    (hcr : c ∈ r.cols) :
    Row.get (mergeRRow l r key rr) c = Row.get rr c := by
  have hmem : c ∈ r.cols.filter (fun c2 => !(decide (c2 = key))) :=
    List.mem_filter.mpr ⟨hcr, by simp [hck]⟩
  have hself : (if l.cols.contains c then sufY c else c) = c := by
    rw [if_neg (by rw [hcl]; exact Bool.false_ne_true)]
  have hinj : ∀ d ∈ r.cols.filter (fun c2 => !(decide (c2 = key))),
      (if l.cols.contains d then sufY d else d) = c → d = c := by
    intro d _ hd
    by_cases hld : l.cols.contains d = true
    · rw [if_pos hld] at hd
      exact absurd hd (hs.2 d)
    · rwa [if_neg hld] at hd
  exact get_named_map rr c (fun d => if l.cols.contains d then sufY d else d)
    (r.cols.filter (fun c2 => !(decide (c2 = key)))) hmem hself hinj

theorem get_joinL_fill (l r : DataFrame) (key : String) (lr : Row) (c : String)
    (hov : mergeOverlap l r key c = false) (hs : safeName c)
    (hone : c = key ∨ r.cols.contains c = false) :
    Row.get (mergeLRow l r key lr ++ mergeFill l r key) c = Row.get lr c := by
  rw [Row.get_append, Row.carries_mergeLRow l r key lr c hov hs]
  by_cases hc : Row.carries lr c = true
  · rw [if_pos hc]
    exact Row.get_mergeLRow l r key lr c hov hs
  · have hc2 : Row.carries lr c = false := by simpa using hc
    rw [hc2, if_neg (by simp), Row.get_eq_na_of_not_carries lr c hc2,
        Row.get_eq_na_of_not_carries _ _ (carries_mergeFill_false l r key c hs hone)]

theorem get_joinL_rrow (l r : DataFrame) (key : String) (lr rr : Row) (c : String)
    (hov : mergeOverlap l r key c = false) (hs : safeName c)
    (hone : c = key ∨ r.cols.contains c = false) :
    Row.get (mergeLRow l r key lr ++ mergeRRow l r key rr) c = Row.get lr c := by
  rw [Row.get_append, Row.carries_mergeLRow l r key lr c hov hs]
  by_cases hc : Row.carries lr c = true
  · rw [if_pos hc]
    exact Row.get_mergeLRow l r key lr c hov hs
  · have hc2 : Row.carries lr c = false := by simpa using hc
    rw [hc2, if_neg (by simp), Row.get_eq_na_of_not_carries lr c hc2,
        Row.get_eq_na_of_not_carries _ _ (carries_mergeRRow_false l r key rr c hs hone)]

theorem get_joinFillR (l r : DataFrame) (key : String) (lr : Row) (c : String)
    (hs : safeName c) (hov : mergeOverlap l r key c = false)
    (hclrow : Row.carries lr c = false) :
    Row.get (mergeLRow l r key lr ++ mergeFill l r key) c = Value.na := by
  rw [Row.get_append, Row.carries_mergeLRow l r key lr c hov hs, hclrow, if_neg (by simp),
      get_mergeFill_na]

theorem get_joinR (l r : DataFrame) (key : String) (lr rr : Row) (c : String)
    (hs : safeName c) (hck : c ≠ key) (hclrow : Row.carries lr c = false)
    (hov : mergeOverlap l r key c = false) (hcl : l.cols.contains c = false)
    (hcr : c ∈ r.cols) :
    Row.get (mergeLRow l r key lr ++ mergeRRow l r key rr) c = Row.get rr c := by
  rw [Row.get_append, Row.carries_mergeLRow l r key lr c hov hs, hclrow, if_neg (by simp)]
  exact get_mergeRRow_of_mem l r key rr c hs hck hcl hcr

theorem row_filter_le_one (L : List Row) (key : String)
    (hu : (L.map (fun rr => Row.get rr key)).Nodup) (k : Value) :
    (L.filter (fun rr => decide (Row.get rr key = k))).length ≤ 1 := by
  induction L with
  | nil => simp
  | cons a t ih =>
    rw [List.map_cons, List.nodup_cons] at hu
    by_cases ha : Row.get a key = k
    · rw [List.filter_cons_of_pos (by simpa using ha)]
      have ht : t.filter (fun rr => decide (Row.get rr key = k)) = [] := by
        rw [List.filter_eq_nil_iff]
        intro x hx hfx
        have hfx2 : Row.get x key = k := by simpa using hfx
        exact hu.1 (List.mem_map.mpr ⟨x, hx, by rw [hfx2, ha]⟩)
      rw [ht]
      simp
    · rw [List.filter_cons_of_neg (by simpa using ha)]
      exact ih hu.2

theorem mergeRowsGo_cons (l r : DataFrame) (key : String) (lr : Row) (rest : List Row) :
    mergeRowsGo l r key (lr :: rest)
      = (match r.rows.filter (fun rr => decide (Row.get rr key = Row.get lr key)) with
         | [] => [mergeLRow l r key lr ++ mergeFill l r key]
         | ms => ms.map (fun rr => mergeLRow l r key lr ++ mergeRRow l r key rr))
        ++ mergeRowsGo l r key rest := rfl

theorem mergeRowsGo_cons_nil (l r : DataFrame) (key : String) (lr : Row) (rest : List Row)
    (hf : r.rows.filter (fun rr => decide (Row.get rr key = Row.get lr key)) = []) :
    mergeRowsGo l r key (lr :: rest)
      = (mergeLRow l r key lr ++ mergeFill l r key) :: mergeRowsGo l r key rest := by
  rw [mergeRowsGo_cons, hf]
  rfl

theorem mergeRowsGo_cons_one (l r : DataFrame) (key : String) (lr : Row) (rest : List Row)
    (rr : Row) (tl : List Row)
    (hf : r.rows.filter (fun rr2 => decide (Row.get rr2 key = Row.get lr key)) = rr :: tl) :
    mergeRowsGo l r key (lr :: rest)
      = (rr :: tl).map (fun rr2 => mergeLRow l r key lr ++ mergeRRow l r key rr2)
        ++ mergeRowsGo l r key rest := by
  rw [mergeRowsGo_cons, hf]

theorem lookupVal_nil (src : DataFrame) (key : String) (k : Value) (c : String)
    (hf : src.rows.filter (fun rr => decide (Row.get rr key = k)) = []) :
    lookupVal src key k c = Value.na := by
  unfold lookupVal
  rw [hf]

theorem lookupVal_cons (src : DataFrame) (key : String) (k : Value) (c : String)
    (rr : Row) (tl : List Row)
    (hf : src.rows.filter (fun rr2 => decide (Row.get rr2 key = k)) = rr :: tl) :
    lookupVal src key k c = Row.get rr c := by
  unfold lookupVal
  rw [hf]

theorem mergeRowsGo_map_get (l r : DataFrame) (key : String) (rows : List Row) (c : String)
    (hu : (r.rows.map (fun rr => Row.get rr key)).Nodup)
    (hs : safeName c) (hov : mergeOverlap l r key c = false)
    (hone : c = key ∨ r.cols.contains c = false) :
    (mergeRowsGo l r key rows).map (fun x => Row.get x c)
      = rows.map (fun lr => Row.get lr c) := by
  induction rows with
  | nil => rfl
  | cons lr rest ih =>
    cases hf : r.rows.filter (fun rr => decide (Row.get rr key = Row.get lr key)) with
    | nil =>
      rw [mergeRowsGo_cons_nil l r key lr rest hf]
      simp only [List.map_cons]
      rw [ih, get_joinL_fill l r key lr c hov hs hone]
    | cons rr tl =>
      have hle := row_filter_le_one r.rows key hu (Row.get lr key)
      rw [hf] at hle
      have htl : tl = [] := by
        cases tl with
        | nil => rfl
        | cons a b => simp at hle
      subst htl
      rw [mergeRowsGo_cons_one l r key lr rest rr [] hf]
      simp only [List.map_cons, List.map_nil, List.cons_append, List.nil_append]
      rw [ih, get_joinL_rrow l r key lr rr c hov hs hone]

theorem mergeRowsGo_map_get_right (l r : DataFrame) (key : String) (rows : List Row)
    (c : String)
    (hu : (r.rows.map (fun rr => Row.get rr key)).Nodup)
    (hs : safeName c) (hck : c ≠ key)
    (hov : mergeOverlap l r key c = false)
    (hcl : l.cols.contains c = false) (hcr : c ∈ r.cols)
    (hrows : ∀ lr ∈ rows, Row.carries lr c = false) :
    (mergeRowsGo l r key rows).map (fun x => Row.get x c)
      = rows.map (fun lr => lookupVal r key (Row.get lr key) c) := by
  induction rows with
  | nil => rfl
  | cons lr rest ih =>
    have hlr := hrows lr (by simp)
    have hrest : ∀ x ∈ rest, Row.carries x c = false :=
      fun x hx => hrows x (List.mem_cons_of_mem lr hx)
    cases hf : r.rows.filter (fun rr => decide (Row.get rr key = Row.get lr key)) with
    | nil =>
      rw [mergeRowsGo_cons_nil l r key lr rest hf]
      simp only [List.map_cons]
      rw [ih hrest, get_joinFillR l r key lr c hs hov hlr,
          lookupVal_nil r key (Row.get lr key) c hf]
    | cons rr tl =>
      have hle := row_filter_le_one r.rows key hu (Row.get lr key)
      rw [hf] at hle
      have htl : tl = [] := by
        cases tl with
        | nil => rfl
        | cons a b => simp at hle
      subst htl
      rw [mergeRowsGo_cons_one l r key lr rest rr [] hf]
      simp only [List.map_cons, List.map_nil, List.cons_append, List.nil_append]
      rw [ih hrest, get_joinR l r key lr rr c hs hck hlr hov hcl hcr,
          lookupVal_cons r key (Row.get lr key) c rr [] hf]

theorem mergeLeft_ok_contains (l r : DataFrame) (key : String) (m : DataFrame)
    (hm : mergeLeft l r key = Except.ok m) :
    l.cols.contains key = true ∧ r.cols.contains key = true := by
  unfold mergeLeft at hm
  by_cases hc : (l.cols.contains key && r.cols.contains key) = true
  · exact Bool.and_eq_true_iff.mp hc
  · rw [if_neg hc] at hm
    cases hm

theorem mergeLeft_ok_eq (l r : DataFrame) (key : String) (m : DataFrame)
    (hm : mergeLeft l r key = Except.ok m) :
    m = ⟨mergeLCols l r key ++ mergeRCols l r key, mergeRowsGo l r key l.rows⟩ := by
  unfold mergeLeft at hm
  by_cases hc : (l.cols.contains key && r.cols.contains key) = true
  · rw [if_pos hc] at hm
    injection hm with h2
    exact h2.symm
  · rw [if_neg hc] at hm
    cases hm

theorem mergeLeft_map_get (l r : DataFrame) (key : String) (m : DataFrame) (c : String)
    (hm : mergeLeft l r key = Except.ok m)
    (hu : (r.rows.map (fun rr => Row.get rr key)).Nodup)
    (hs : safeName c)
    (hone : c = key ∨ r.cols.contains c = false) :
    m.rows.map (fun x => Row.get x c) = l.rows.map (fun lr => Row.get lr c) := by
  have hov : mergeOverlap l r key c = false := by
    rcases hone with rfl | hcr
    · simp [mergeOverlap]
    · unfold mergeOverlap
      rw [hcr]
      simp
  rw [mergeLeft_ok_eq l r key m hm]
  exact mergeRowsGo_map_get l r key l.rows c hu hs hov hone

theorem mergeLeft_map_get_right (l r : DataFrame) (key : String) (m : DataFrame) (c : String)
    (hm : mergeLeft l r key = Except.ok m)
    (hu : (r.rows.map (fun rr => Row.get rr key)).Nodup)
    (hs : safeName c) (hck : c ≠ key)
    (hcl : l.cols.contains c = false) (hcr : c ∈ r.cols)
    (hrows : ∀ lr ∈ l.rows, Row.carries lr c = false) :
    m.rows.map (fun x => Row.get x c)
      = l.rows.map (fun lr => lookupVal r key (Row.get lr key) c) := by
  have hov : mergeOverlap l r key c = false := by
    unfold mergeOverlap
    rw [hcl]
    simp
  rw [mergeLeft_ok_eq l r key m hm]
  exact mergeRowsGo_map_get_right l r key l.rows c hu hs hck hov hcl hcr hrows

theorem mem_mergeRCols (l r : DataFrame) (key c : String) (hcr : c ∈ r.cols) (hck : c ≠ key)
    (hcl : l.cols.contains c = false) : c ∈ mergeRCols l r key := by
  unfold mergeRCols
  apply List.mem_map.mpr
  refine ⟨c, List.mem_filter.mpr ⟨hcr, by simp [hck]⟩, ?_⟩
  rw [if_neg (by rw [hcl]; exact Bool.false_ne_true)]

theorem mem_mergeLCols (l r : DataFrame) (key c : String) (hc : c ∈ l.cols)
    (hov : mergeOverlap l r key c = false) : c ∈ mergeLCols l r key := by
  unfold mergeLCols
  apply List.mem_map.mpr
  exact ⟨c, hc, by rw [if_neg (by rw [hov]; exact Bool.false_ne_true)]⟩

theorem mergeLeft_mem_cols_right (l r : DataFrame) (key : String) (m : DataFrame) (c : String)
    (hm : mergeLeft l r key = Except.ok m) (hcr : c ∈ r.cols) (hck : c ≠ key)
    (hcl : l.cols.contains c = false) : c ∈ m.cols := by
  rw [mergeLeft_ok_eq l r key m hm]
  exact List.mem_append.mpr (Or.inr (mem_mergeRCols l r key c hcr hck hcl))

theorem mergeLeft_mem_cols_left (l r : DataFrame) (key : String) (m : DataFrame) (c : String)
    (hm : mergeLeft l r key = Except.ok m) (hc : c ∈ l.cols)
    (hov : mergeOverlap l r key c = false) : c ∈ m.cols := by
  rw [mergeLeft_ok_eq l r key m hm]
  exact List.mem_append.mpr (Or.inl (mem_mergeLCols l r key c hc hov))

/-! ### Identifier-column tracking through the pipeline -/

theorem exbind_ok {α β : Type} (a : α) (f : α → Except String β) :
    (Except.ok a >>= f) = f a := rfl

theorem exbind_err {α β : Type} (e : String) (f : α → Except String β) :
    ((Except.error e : Except String α) >>= f) = Except.error e := rfl

theorem keysOf_map_setEntry (L : List Row) (c : String) (g : Row → Value) (hc : c ≠ eidCol) :
    (L.map (fun r => r.setEntry c (g r))).map (fun r => Row.get r eidCol)
      = L.map (fun r => Row.get r eidCol) := by
  rw [List.map_map]
  apply List.map_congr_left
  intro r _
  exact Row.get_setEntry_ne r c eidCol (g r) (Ne.symm hc)

theorem keysOf_setColWith (df : DataFrame) (c : String) (f : Row → Value) (hc : c ≠ eidCol) :
    keysOf (df.setColWith c f) = keysOf df := by
  unfold keysOf DataFrame.setColWith
  exact keysOf_map_setEntry df.rows c f hc

theorem keysOf_setCol (df : DataFrame) (c : String) (v : Value) (hc : c ≠ eidCol) :
    keysOf (df.setCol c v) = keysOf df := by
  unfold keysOf DataFrame.setCol
  exact keysOf_map_setEntry df.rows c (fun _ => v) hc

theorem keysOf_mapCol (df : DataFrame) (c : String) (g : Value → Value) (hc : c ≠ eidCol) :
    keysOf (df.mapCol c g) = keysOf df := by
  unfold keysOf DataFrame.mapCol
  exact keysOf_map_setEntry df.rows c (fun r => g (r.get c)) hc

theorem get_map_overwrite (r : Row) (old new dcol : String) (v : Value)
    (h1 : dcol ≠ old) (h2 : dcol ≠ new) :
    Row.get ((r.map (fun p => if p.1 = dcol then (p.1, v) else p)).map
        (fun p => if p.1 = old then (new, p.2) else p)) new
      = Row.get (r.map (fun p => if p.1 = old then (new, p.2) else p)) new := by
  induction r with
  | nil => rfl
  | cons p t ih =>
    rcases p with ⟨a, w⟩
    simp only [List.map_cons]
    by_cases hp : a = dcol
    · have ho : a ≠ old := by rw [hp]; exact h1
      have hn : a ≠ new := by rw [hp]; exact h2
      rw [if_pos (show (a, w).1 = dcol from hp)]
      rw [if_neg (show ¬((a, v).1 = old) from ho), if_neg (show ¬((a, w).1 = old) from ho)]
      rw [Row.get_cons, Row.get_cons, if_neg (show ¬((a, v).1 = new) from hn),
          if_neg (show ¬((a, w).1 = new) from hn)]
      exact ih
    · rw [if_neg (show ¬((a, w).1 = dcol) from hp)]
      by_cases ho : a = old
      · rw [if_pos (show (a, w).1 = old from ho)]
        rw [Row.get_cons, Row.get_cons, if_pos (show (new, w).1 = new from rfl),
            if_pos (show (new, w).1 = new from rfl)]
      · rw [if_neg (show ¬((a, w).1 = old) from ho)]
        rw [Row.get_cons, Row.get_cons]
        by_cases hn : a = new
        · rw [if_pos (show (a, w).1 = new from hn), if_pos (show (a, w).1 = new from hn)]
        · rw [if_neg (show ¬((a, w).1 = new) from hn), if_neg (show ¬((a, w).1 = new) from hn)]
          exact ih

theorem get_rename_setEntry (r : Row) (old new dcol : String) (v : Value)
    (h1 : dcol ≠ old) (h2 : dcol ≠ new) :
    Row.get ((r.setEntry dcol v).map (fun p => if p.1 = old then (new, p.2) else p)) new
      = Row.get (r.map (fun p => if p.1 = old then (new, p.2) else p)) new := by
  unfold Row.setEntry
  split
  · exact get_map_overwrite r old new dcol v h1 h2
  · rw [List.map_append, Row.get_append]
    have hone : List.map (fun p => if p.1 = old then (new, p.2) else p) [(dcol, v)]
        = [(dcol, v)] := by
      rw [List.map_cons, List.map_nil, if_neg (show ¬((dcol, v).1 = old) from h1)]
    rw [hone]
    by_cases hc : Row.carries (r.map (fun p => if p.1 = old then (new, p.2) else p)) new = true
    · rw [if_pos hc]
    · have hc2 : Row.carries (r.map (fun p => if p.1 = old then (new, p.2) else p)) new
          = false := by simpa using hc
      rw [hc2, if_neg (by simp), Row.get_eq_na_of_not_carries _ _ hc2, Row.get_cons,
          if_neg (show ¬((dcol, v).1 = new) from h2)]
      rfl

theorem keysOf_renameCol_mapCol (E : DataFrame) (c : String) (g : Value → Value)
    (h1 : c ≠ ("id")) (h2 : c ≠ eidCol) :
    keysOf ((E.mapCol c g).renameCol ("id") eidCol)
      = keysOf (E.renameCol ("id") eidCol) := by
  unfold keysOf DataFrame.renameCol DataFrame.mapCol
  simp only [List.map_map]
  apply List.map_congr_left
  intro r _
  exact get_rename_setEntry r ("id") eidCol c (g (r.get c)) h1 h2

theorem keysOf_rename_dateNorm (E : DataFrame) (cs : List String)
    (h : ∀ c ∈ cs, c ≠ ("id") ∧ c ≠ eidCol) :
    keysOf ((dateNorm E cs).renameCol ("id") eidCol)
      = keysOf (E.renameCol ("id") eidCol) := by
  induction cs generalizing E with
  | nil => rfl
  | cons c t ih =>
    have hstep : dateNorm E (c :: t)
        = dateNorm (if E.cols.contains c then E.mapCol c toDatetime else E) t := rfl
    rw [hstep, ih _ (fun d hd => h d (List.mem_cons_of_mem c hd))]
    split
    · exact keysOf_renameCol_mapCol E c toDatetime (h c (by simp)).1 (h c (by simp)).2
    · rfl

theorem keysOf_prepEmp (E : DataFrame) (y : Int) (d : Int × Int × Int) :
    keysOf (prepEmp E y d) = keysOf (E.renameCol ("id") eidCol) := by
  have step2 : ∀ (df : DataFrame), keysOf df = keysOf (E.renameCol ("id") eidCol) →
      keysOf (if df.cols.contains ("hire_date") then
          df.setColWith ("company_tenure") (fun r => tenureOf d (r.get ("hire_date")))
        else df.setCol ("company_tenure") Value.na)
        = keysOf (E.renameCol ("id") eidCol) := by
    intro df hdf
    split
    · rw [keysOf_setColWith _ _ _ (by decide)]
      exact hdf
    · rw [keysOf_setCol _ _ _ (by decide)]
      exact hdf
  unfold prepEmp
  apply step2
  split
  · exact keysOf_setColWith _ _ _ (by decide)
  · exact keysOf_setCol _ _ _ (by decide)

theorem keysOf_selectCols_head (df : DataFrame) (cs : List String) (m : DataFrame)
    (hm : df.selectCols (eidCol :: cs) = Except.ok m) : keysOf m = keysOf df := by
  unfold DataFrame.selectCols at hm
  split at hm
  · injection hm with h2
    subst h2
    unfold keysOf
    rw [List.map_map]
    apply List.map_congr_left
    intro r _
    simp only [Function.comp]
    rw [List.map_cons, Row.get_cons, if_pos rfl]
  · cases hm

theorem keysOf_selectPresent_head (df : DataFrame) (cs : List String)
    (he : df.cols.contains eidCol = true) :
    keysOf (df.selectPresent (eidCol :: cs)) = keysOf df := by
  unfold DataFrame.selectPresent keysOf
  rw [List.map_map]
  apply List.map_congr_left
  intro r _
  simp only [Function.comp]
  rw [List.filter_cons_of_pos he, List.map_cons, Row.get_cons, if_pos rfl]

theorem dedupRowsGo_sublist (seen : List Row) (L : List Row) :
    List.Sublist (dedupRowsGo seen L) L := by
  induction L generalizing seen with
  | nil => exact List.Sublist.refl []
  | cons r rs ih =>
    unfold dedupRowsGo
    split
    · exact List.Sublist.cons r (ih seen)
    · exact List.Sublist.cons₂ r (ih (r :: seen))

theorem keysOf_dropDuplicates_nodup (df : DataFrame) (hu : (keysOf df).Nodup) :
    (keysOf df.dropDuplicates).Nodup := by
  exact hu.sublist
    (List.Sublist.map (fun r => Row.get r eidCol) (dedupRowsGo_sublist [] df.rows))

theorem keysOf_renameCol_ne (df : DataFrame) (old new : String)
    (h1 : old ≠ eidCol) (h2 : new ≠ eidCol) :
    keysOf (df.renameCol old new) = keysOf df := by
  unfold keysOf DataFrame.renameCol
  rw [List.map_map]
  apply List.map_congr_left
  intro r hmem
  clear hmem
  simp only [Function.comp]
  induction r with
  | nil => rfl
  | cons p t ih =>
    rcases p with ⟨a, w⟩
    simp only [List.map_cons]
    by_cases ho : a = old
    · rw [if_pos (show (a, w).1 = old from ho)]
      rw [Row.get_cons, Row.get_cons, if_neg (show ¬((new, w).1 = eidCol) from h2),
          if_neg (show ¬((a, w).1 = eidCol) from by rw [ho]; exact h1)]
      exact ih
    · rw [if_neg (show ¬((a, w).1 = old) from ho)]
      rw [Row.get_cons, Row.get_cons]
      by_cases hn : a = eidCol
      · rw [if_pos (show (a, w).1 = eidCol from hn), if_pos (show (a, w).1 = eidCol from hn)]
      · rw [if_neg (show ¬((a, w).1 = eidCol) from hn),
            if_neg (show ¬((a, w).1 = eidCol) from hn)]
        exact ih

theorem selectPresent_contains_eid (df : DataFrame) (cs : List String)
    (h : ((df.selectPresent (eidCol :: cs)).cols.contains eidCol) = true) :
    df.cols.contains eidCol = true := by
  unfold DataFrame.selectPresent at h
  have h2 : eidCol ∈ (eidCol :: cs).filter (fun c => df.cols.contains c) := by
    simpa using h
  exact (List.mem_filter.mp h2).2

theorem latest_app_keys_nodup_aux (T : DataFrame) (sortCol : String) (out : DataFrame)
    (h : (if (!(T.cols.contains eidCol)) = true then
            (Except.error ("KeyError: employee_id") : Except String DataFrame)
          else Except.ok ⟨(T.sortValues eidCol sortCol).cols,
            tailPerGroup (T.sortValues eidCol sortCol).rows⟩) = Except.ok out) :
    (keysOf out).Nodup := by
  split at h
  · cases h
  · injection h with h2
    subst h2
    exact tailPerGroup_keys_nodup _

theorem latest_app_keys_nodup (df : DataFrame) (sortCol : String) (out : DataFrame)
    (h : latest_per_employee_app df sortCol = Except.ok out) : (keysOf out).Nodup := by
  unfold latest_per_employee_app at h
  split at h
  · injection h with h2
    subst h2
    unfold keysOf
    rename_i he
    rw [List.isEmpty_iff.mp he]
    exact List.nodup_nil
  · exact latest_app_keys_nodup_aux
      (if df.cols.contains sortCol then df else df.setCol sortCol epochTs) sortCol out h

theorem deptLatest_keys_nodup (n : Tables) (dl : DataFrame)
    (h : deptLatestOf n = Except.ok dl)
    (hcs : (keysOf n.cur_snap).Nodup)
    (hdept : (n.department.rows.map (fun rr => Row.get rr ("dept_id"))).Nodup)
    (hdept_eid : n.department.cols.contains eidCol = false)
    (heid : dl.cols.contains eidCol = true) :
    (keysOf dl).Nodup := by
  unfold deptLatestOf at h
  split at h
  · cases hd1 : latest_per_employee_app n.dept_emp (deptSortCol n.dept_emp) with
    | error e =>
      rw [hd1] at h
      simp only [exbind_err] at h
      cases h
    | ok dlat =>
      rw [hd1] at h
      simp only [exbind_ok] at h
      cases hd2 : mergeLeft dlat n.department ("dept_id") with
      | error e =>
        rw [hd2] at h
        simp only [exbind_err] at h
        cases h
      | ok m =>
        rw [hd2] at h
        simp only [exbind_ok] at h
        rw [keysOf_selectCols_head m [("dept_id"), ("dept_name")] dl h]
        have hk2 : keysOf m = keysOf dlat := by
          unfold keysOf
          exact mergeLeft_map_get dlat n.department ("dept_id") m eidCol hd2 hdept
            safeName_eid (Or.inr hdept_eid)
        rw [hk2]
        exact latest_app_keys_nodup n.dept_emp (deptSortCol n.dept_emp) dlat hd1
  · injection h with h2
    subst h2
    apply keysOf_dropDuplicates_nodup
    have he : n.cur_snap.cols.contains eidCol = true :=
      selectPresent_contains_eid n.cur_snap [("dept_name")] heid
    rw [keysOf_selectPresent_head n.cur_snap [("dept_name")] he]
    exact hcs

theorem titleLatest_keys_nodup (n : Tables) (tl : DataFrame)
    (h : titleLatestOf n = Except.ok tl)
    (hcs : (keysOf n.cur_snap).Nodup)
    (heid : tl.cols.contains eidCol = true) :
    (keysOf tl).Nodup := by
  unfold titleLatestOf at h
  split at h
  · cases ht1 : latest_per_employee_app n.title (titleSortCol n.title) with
    | error e =>
      rw [ht1] at h
      simp only [exbind_err] at h
      cases h
    | ok tlat =>
      rw [ht1] at h
      simp only [exbind_ok] at h
      rw [keysOf_selectCols_head tlat [("title")] tl h]
      exact latest_app_keys_nodup n.title (titleSortCol n.title) tlat ht1
  · injection h with h2
    subst h2
    apply keysOf_dropDuplicates_nodup
    have he : n.cur_snap.cols.contains eidCol = true :=
      selectPresent_contains_eid n.cur_snap [("title")] heid
    rw [keysOf_selectPresent_head n.cur_snap [("title")] he]
    exact hcs

theorem salLatest_keys_nodup (n : Tables) (sl : DataFrame)
    (h : salLatestOf n = Except.ok sl) :
    (keysOf sl).Nodup := by
  unfold salLatestOf at h
  split at h
  · cases hs1 : latest_per_employee_app n.salary (salSortCol n.salary) with
    | error e =>
      rw [hs1] at h
      simp only [exbind_err] at h
      cases h
    | ok slat =>
      rw [hs1] at h
      simp only [exbind_ok] at h
      cases hs2 : DataFrame.selectCols slat [eidCol, ("amount")] with
      | error e =>
        rw [hs2] at h
        simp only [exbind_err] at h
        cases h
      | ok s2 =>
        rw [hs2] at h
        simp only [exbind_ok] at h
        injection h with h2
        subst h2
        rw [keysOf_renameCol_ne s2 ("amount") ("latest_salary") (by decide) (by decide)]
        rw [keysOf_selectCols_head slat [("amount")] s2 hs2]
        exact latest_app_keys_nodup n.salary (salSortCol n.salary) slat hs1
  · injection h with h2
    subst h2
    exact List.nodup_nil

theorem load_data_ok_parts (t : Tables) (nowYear : Int) (today : Int × Int × Int)
    (res : LoadResult) (hok : load_data t nowYear today = Except.ok res) :
    ∃ dl tl sl s1 s2 s3,
      deptLatestOf (normTables t) = Except.ok dl ∧
      titleLatestOf (normTables t) = Except.ok tl ∧
      salLatestOf (normTables t) = Except.ok sl ∧
      mergeLeft (prepEmp (normTables t).employee nowYear today) dl eidCol = Except.ok s1 ∧
      mergeLeft s1 tl eidCol = Except.ok s2 ∧
      mergeLeft s2 sl eidCol = Except.ok s3 ∧
      extraMerge s3 (normTables t).cur_snap = Except.ok res.snapshot := by
  unfold load_data at hok
  dsimp only at hok
  cases h1 : deptLatestOf (normTables t) with
  | error e =>
    rw [h1] at hok
    simp only [exbind_err] at hok
    cases hok
  | ok dl =>
    rw [h1] at hok
    simp only [exbind_ok] at hok
    cases h2 : titleLatestOf (normTables t) with
    | error e =>
      rw [h2] at hok
      simp only [exbind_err] at hok
      cases hok
    | ok tl =>
      rw [h2] at hok
      simp only [exbind_ok] at hok
      cases h3 : salLatestOf (normTables t) with
      | error e =>
        rw [h3] at hok
        simp only [exbind_err] at hok
        cases hok
      | ok sl =>
        rw [h3] at hok
        simp only [exbind_ok] at hok
        cases h4 : mergeLeft (prepEmp (normTables t).employee nowYear today) dl eidCol with
        | error e =>
          rw [h4] at hok
          simp only [exbind_err] at hok
          cases hok
        | ok s1 =>
          rw [h4] at hok
          simp only [exbind_ok] at hok
          cases h5 : mergeLeft s1 tl eidCol with
          | error e =>
            rw [h5] at hok
            simp only [exbind_err] at hok
            cases hok
          | ok s2 =>
            rw [h5] at hok
            simp only [exbind_ok] at hok
            cases h6 : mergeLeft s2 sl eidCol with
            | error e =>
              rw [h6] at hok
              simp only [exbind_err] at hok
              cases hok
            | ok s3 =>
              rw [h6] at hok
              simp only [exbind_ok] at hok
              cases h7 : extraMerge s3 (normTables t).cur_snap with
              | error e =>
                rw [h7] at hok
                simp only [exbind_err] at hok
                cases hok
              | ok snap =>
                rw [h7] at hok
                simp only [exbind_ok] at hok
                injection hok with h8
                refine ⟨dl, tl, sl, s1, s2, s3, rfl, rfl, rfl, h4, h5, h6, ?_⟩
                rw [← h8]
                exact h7

theorem extraMerge_keys (snapshot cur_snap : DataFrame) (out : DataFrame)
    (h : extraMerge snapshot cur_snap = Except.ok out)
    (hcs : (keysOf cur_snap).Nodup) :
    keysOf out = keysOf snapshot := by
  unfold extraMerge at h
  simp only [] at h
  split at h
  · injection h with h2
    subst h2
    rfl
  · cases hsel : cur_snap.selectCols (eidCol :: cur_snap.cols.filter
        (fun c => !(snapshot.cols.contains c) && !(decide (c = eidCol)))) with
    | error e =>
      rw [hsel] at h
      simp only [exbind_err] at h
      cases h
    | ok sel =>
      rw [hsel] at h
      simp only [exbind_ok] at h
      have hu : (keysOf sel).Nodup := by
        rw [keysOf_selectCols_head cur_snap _ sel hsel]
        exact hcs
      unfold keysOf
      exact mergeLeft_map_get snapshot sel eidCol out eidCol h hu safeName_eid (Or.inl rfl)

theorem snapshot_keys_eq (t : Tables) (nowYear : Int) (today : Int × Int × Int)
    (res : LoadResult) (hok : load_data t nowYear today = Except.ok res)
    (hcs : (keysOf t.cur_snap).Nodup)
    (hdept : (t.department.rows.map (fun rr => Row.get rr ("dept_id"))).Nodup)
    (hdept_eid : t.department.cols.contains eidCol = false) :
    keysOf res.snapshot = keysOf (t.employee.renameCol ("id") eidCol) := by
  obtain ⟨dl, tl, sl, s1, s2, s3, h1, h2, h3, h4, h5, h6, h7⟩ :=
    load_data_ok_parts t nowYear today res hok
  have hdl_eid : dl.cols.contains eidCol = true := (mergeLeft_ok_contains _ _ _ _ h4).2
  have htl_eid : tl.cols.contains eidCol = true := (mergeLeft_ok_contains _ _ _ _ h5).2
  have hdlu : (keysOf dl).Nodup :=
    deptLatest_keys_nodup (normTables t) dl h1 hcs hdept hdept_eid hdl_eid
  have htlu : (keysOf tl).Nodup := titleLatest_keys_nodup (normTables t) tl h2 hcs htl_eid
  have hslu : (keysOf sl).Nodup := salLatest_keys_nodup (normTables t) sl h3
  have k7 : keysOf res.snapshot = keysOf s3 :=
    extraMerge_keys s3 (normTables t).cur_snap res.snapshot h7 hcs
  have k6 : keysOf s3 = keysOf s2 := by
    unfold keysOf
    exact mergeLeft_map_get s2 sl eidCol s3 eidCol h6 hslu safeName_eid (Or.inl rfl)
  have k5 : keysOf s2 = keysOf s1 := by
    unfold keysOf
    exact mergeLeft_map_get s1 tl eidCol s2 eidCol h5 htlu safeName_eid (Or.inl rfl)
  have k4 : keysOf s1 = keysOf (prepEmp (normTables t).employee nowYear today) := by
    unfold keysOf
    exact mergeLeft_map_get (prepEmp (normTables t).employee nowYear today) dl eidCol s1
      eidCol h4 hdlu safeName_eid (Or.inl rfl)
  have kp : keysOf (prepEmp (normTables t).employee nowYear today)
      = keysOf ((normTables t).employee.renameCol ("id") eidCol) :=
    keysOf_prepEmp (normTables t).employee nowYear today
  have kn : keysOf ((normTables t).employee.renameCol ("id") eidCol)
      = keysOf (t.employee.renameCol ("id") eidCol) :=
    keysOf_rename_dateNorm t.employee
      [("birth_date"), ("hire_date"), ("termination_date")] (by decide)
  rw [k7, k6, k5, k4, kp, kn]

/-- C2 counterexample: with one base employee but a current snapshot
holding two `dept_name` rows for that identifier, the dept fallback table
keeps both rows and the left join on `employee_id` fans out: `load_data`
succeeds, yet the snapshot has 2 rows where the base table has 1 —
refuting "exactly one row per distinct employee_id and exactly len(base)
rows for every set of input tables". -/
theorem C2_counterexample :
    (snapOf (load_data c2Tables 2026 (2026, 1, 1))).rows.length = 2 ∧
    c2Tables.employee.rows.length = 1 ∧
    (load_data c2Tables 2026 (2026, 1, 1)).isOk = true ∧
    (keysOf (c2Tables.employee.renameCol ("id") eidCol)).Nodup := by
  decide

/-- C2 (amended): when every right-hand attribute source is key-unique —
the current snapshot has no duplicate `employee_id` and `department` has
no duplicate `dept_id` (and `department` does not itself carry an
`employee_id` column) — a successful `load_data` preserves the base rows
exactly: the snapshot's `employee_id` column equals, in order, that of
the base employee table after its `id` column is renamed, so the row
count equals `len(base)` and distinct base identifiers yield exactly one
snapshot row each. -/
theorem C2_amended_base_rows (t : Tables) (nowYear : Int) (today : Int × Int × Int)
    (hok : (load_data t nowYear today).isOk = true)
    (hcs : (keysOf t.cur_snap).Nodup)
    (hdept : (t.department.rows.map (fun rr => Row.get rr ("dept_id"))).Nodup)
    (hdept_eid : t.department.cols.contains eidCol = false) :
    keysOf (snapOf (load_data t nowYear today))
        = keysOf (t.employee.renameCol ("id") eidCol) ∧
    (snapOf (load_data t nowYear today)).rows.length = t.employee.rows.length ∧
    ((keysOf (t.employee.renameCol ("id") eidCol)).Nodup →
      (keysOf (snapOf (load_data t nowYear today))).Nodup) := by
  cases hl : load_data t nowYear today with
  | error e =>
    rw [hl] at hok
    cases hok
  | ok res =>
    have hkeys : keysOf res.snapshot = keysOf (t.employee.renameCol ("id") eidCol) :=
      snapshot_keys_eq t nowYear today res hl hcs hdept hdept_eid
    refine ⟨hkeys, ?_, ?_⟩
    · have hlen := congrArg List.length hkeys
      simp only [keysOf, List.length_map] at hlen
      exact hlen.trans (by simp [DataFrame.renameCol])
    · intro hnd
      have : keysOf (snapOf (Except.ok res)) = keysOf (t.employee.renameCol ("id") eidCol) :=
        hkeys
      rw [this]
      exact hnd

/-- Witness for C2 (amended) at a concrete key-unique input: one base
employee, one snapshot row; the snapshot identifier column equals the
renamed base identifier column. -/
theorem C2_amended_base_rows_witness :
    keysOf (snapOf (load_data c2wTables 2026 (2026, 1, 1)))
        = keysOf (c2wTables.employee.renameCol ("id") eidCol) ∧
    (snapOf (load_data c2wTables 2026 (2026, 1, 1))).rows.length
        = c2wTables.employee.rows.length ∧
    ((keysOf (c2wTables.employee.renameCol ("id") eidCol)).Nodup →
      (keysOf (snapOf (load_data c2wTables 2026 (2026, 1, 1)))).Nodup) :=
  C2_amended_base_rows c2wTables 2026 (2026, 1, 1) (by decide) (by decide) (by decide)
    (by decide)

/-! ### Column-absence tracking for the dept attribute -/

theorem carries_setEntry_ne (r : Row) (c c' : String) (v : Value) (hne : c' ≠ c)
    (hc : Row.carries r c = false) : Row.carries (r.setEntry c' v) c = false := by
  unfold Row.setEntry
  split
  · rw [Row.carries_overwrite]
    exact hc
  · rw [Row.carries_append, hc]
    simp [Row.carries, hne]

theorem carries_map_rename_false (r : Row) (old new c : String) (hnew : new ≠ c)
    (hc : Row.carries r c = false) :
    Row.carries (r.map (fun p => if p.1 = old then (new, p.2) else p)) c = false := by
  induction r with
  | nil => rfl
  | cons p t ih =>
    simp only [Row.carries, Bool.or_eq_false_iff] at hc
    simp only [List.map_cons, Row.carries, Bool.or_eq_false_iff]
    refine ⟨?_, ih hc.2⟩
    by_cases ho : p.1 = old
    · have heq : (if p.1 = old then (new, p.2) else p) = (new, p.2) := if_pos ho
      simp only [heq]
      simpa using hnew
    · have heq : (if p.1 = old then (new, p.2) else p) = p := if_neg ho
      simp only [heq]
      exact hc.1

theorem setColWith_rows_carries (df : DataFrame) (c' : String) (f : Row → Value) (c : String)
    (hne : c' ≠ c) (hr : ∀ r ∈ df.rows, Row.carries r c = false) :
    ∀ r ∈ (df.setColWith c' f).rows, Row.carries r c = false := by
  intro r hrm
  rcases List.mem_map.mp hrm with ⟨r0, hr0, rfl⟩
  exact carries_setEntry_ne r0 c c' (f r0) hne (hr r0 hr0)

theorem setCol_rows_carries (df : DataFrame) (c' : String) (v : Value) (c : String)
    (hne : c' ≠ c) (hr : ∀ r ∈ df.rows, Row.carries r c = false) :
    ∀ r ∈ (df.setCol c' v).rows, Row.carries r c = false := by
  intro r hrm
  rcases List.mem_map.mp hrm with ⟨r0, hr0, rfl⟩
  exact carries_setEntry_ne r0 c c' v hne (hr r0 hr0)

theorem renameCol_rows_carries (df : DataFrame) (old new c : String) (hnew : new ≠ c)
    (hr : ∀ r ∈ df.rows, Row.carries r c = false) :
    ∀ r ∈ (df.renameCol old new).rows, Row.carries r c = false := by
  intro r hrm
  rcases List.mem_map.mp hrm with ⟨r0, hr0, rfl⟩
  exact carries_map_rename_false r0 old new c hnew (hr r0 hr0)

theorem mapCol_rows_carries (df : DataFrame) (c' : String) (g : Value → Value) (c : String)
    (hne : c' ≠ c) (hr : ∀ r ∈ df.rows, Row.carries r c = false) :
    ∀ r ∈ (df.mapCol c' g).rows, Row.carries r c = false := by
  intro r hrm
  rcases List.mem_map.mp hrm with ⟨r0, hr0, rfl⟩
  exact carries_setEntry_ne r0 c c' (g (r0.get c')) hne (hr r0 hr0)

theorem contains_snoc_false (cs : List String) (c c' : String) (h : cs.contains c = false)
    (h2 : c' ≠ c) : (cs ++ [c']).contains c = false := by
  have h3 : c ∉ cs := by simpa using h
  have : c ∉ cs ++ [c'] := by
    intro hmem
    rcases List.mem_append.mp hmem with hm | hm
    · exact h3 hm
    · have hcc : c = c' := by simpa using hm
      exact h2 hcc.symm
  simpa using this

theorem setColWith_cols_contains_false (df : DataFrame) (c' : String) (f : Row → Value)
    (c : String) (hne : c' ≠ c) (h : df.cols.contains c = false) :
    (df.setColWith c' f).cols.contains c = false := by
  simp only [DataFrame.setColWith]
  split
  · exact h
  · exact contains_snoc_false df.cols c c' h hne

theorem contains_false_rename_cols (cs : List String) (old new c : String)
    (hnew : new ≠ c) (h : cs.contains c = false) :
    (cs.map (fun d => if d = old then new else d)).contains c = false := by
  have h3 : c ∉ cs := by simpa using h
  have : c ∉ cs.map (fun d => if d = old then new else d) := by
    intro hmem
    rcases List.mem_map.mp hmem with ⟨d, hd, hdc⟩
    by_cases ho : d = old
    · rw [if_pos ho] at hdc
      exact hnew hdc
    · rw [if_neg ho] at hdc
      exact h3 (hdc ▸ hd)
  simpa using this

theorem renameCol_cols_contains_false (df : DataFrame) (old new c : String)
    (hnew : new ≠ c) (h : df.cols.contains c = false) :
    (df.renameCol old new).cols.contains c = false :=
  contains_false_rename_cols df.cols old new c hnew h

theorem dateNorm_cols (df : DataFrame) (cs : List String) :
    (dateNorm df cs).cols = df.cols := by
  induction cs generalizing df with
  | nil => rfl
  | cons c t ih =>
    have hstep : dateNorm df (c :: t)
        = dateNorm (if df.cols.contains c then df.mapCol c toDatetime else df) t := rfl
    rw [hstep, ih]
    split
    · rename_i hc
      exact DataFrame.mapCol_cols_of_contains df c toDatetime hc
    · rfl

theorem dateNorm_rows_carries (df : DataFrame) (cs : List String) (c : String)
    (h : ∀ d ∈ cs, d ≠ c)
    (hr : ∀ r ∈ df.rows, Row.carries r c = false) :
    ∀ r ∈ (dateNorm df cs).rows, Row.carries r c = false := by
  induction cs generalizing df with
  | nil => exact hr
  | cons d t ih =>
    have hstep : dateNorm df (d :: t)
        = dateNorm (if df.cols.contains d then df.mapCol d toDatetime else df) t := rfl
    rw [hstep]
    refine ih _ (fun d2 hd2 => h d2 (List.mem_cons_of_mem d hd2)) ?_
    split
    · exact mapCol_rows_carries df d toDatetime c (h d (by simp)) hr
    · exact hr

theorem prepEmp_cols_contains_false (E : DataFrame) (y : Int) (d : Int × Int × Int)
    (c : String)
    (h1 : c ≠ ("age")) (h2 : c ≠ ("company_tenure")) (h3 : c ≠ eidCol)
    (hcols : E.cols.contains c = false) :
    (prepEmp E y d).cols.contains c = false := by
  have hrn : (E.renameCol ("id") eidCol).cols.contains c = false :=
    renameCol_cols_contains_false E ("id") eidCol c (Ne.symm h3) hcols
  have step2 : ∀ (df : DataFrame), df.cols.contains c = false →
      (if df.cols.contains ("hire_date") then
          df.setColWith ("company_tenure") (fun r => tenureOf d (r.get ("hire_date")))
        else df.setCol ("company_tenure") Value.na).cols.contains c = false := by
    intro df hdf
    split
    · exact setColWith_cols_contains_false df ("company_tenure") _ c (Ne.symm h2) hdf
    · exact DataFrame.setCol_not_contains df ("company_tenure") Value.na c h2 hdf
  unfold prepEmp
  apply step2
  split
  · exact setColWith_cols_contains_false _ ("age") _ c (Ne.symm h1) hrn
  · exact DataFrame.setCol_not_contains _ ("age") Value.na c h1 hrn

theorem prepEmp_rows_carries (E : DataFrame) (y : Int) (d : Int × Int × Int) (c : String)
    (h1 : c ≠ ("age")) (h2 : c ≠ ("company_tenure")) (h3 : c ≠ eidCol)
    (hr : ∀ r ∈ E.rows, Row.carries r c = false) :
    ∀ r ∈ (prepEmp E y d).rows, Row.carries r c = false := by
  have hrn : ∀ r ∈ (E.renameCol ("id") eidCol).rows, Row.carries r c = false :=
    renameCol_rows_carries E ("id") eidCol c (Ne.symm h3) hr
  have step2 : ∀ (df : DataFrame), (∀ r ∈ df.rows, Row.carries r c = false) →
      ∀ r ∈ (if df.cols.contains ("hire_date") then
          df.setColWith ("company_tenure") (fun r => tenureOf d (r.get ("hire_date")))
        else df.setCol ("company_tenure") Value.na).rows, Row.carries r c = false := by
    intro df hdf
    split
    · exact setColWith_rows_carries df ("company_tenure") _ c (Ne.symm h2) hdf
    · exact setCol_rows_carries df ("company_tenure") Value.na c (Ne.symm h2) hdf
  unfold prepEmp
  apply step2
  split
  · exact setColWith_rows_carries _ ("age") _ c (Ne.symm h1) hrn
  · exact setCol_rows_carries _ ("age") Value.na c (Ne.symm h1) hrn

theorem selectCols_cols (df : DataFrame) (cs : List String) (m : DataFrame)
    (hm : df.selectCols cs = Except.ok m) : m.cols = cs := by
  unfold DataFrame.selectCols at hm
  split at hm
  · injection hm with h2
    subst h2
    rfl
  · cases hm

theorem titleLatest_cols (n : Tables) (tl : DataFrame)
    (h : titleLatestOf n = Except.ok tl) :
    ∀ c ∈ tl.cols, c = eidCol ∨ c = ("title") := by
  unfold titleLatestOf at h
  split at h
  · cases ht1 : latest_per_employee_app n.title (titleSortCol n.title) with
    | error e =>
      rw [ht1] at h
      simp only [exbind_err] at h
      cases h
    | ok tlat =>
      rw [ht1] at h
      simp only [exbind_ok] at h
      rw [selectCols_cols tlat [eidCol, ("title")] tl h]
      intro c hc
      simpa using hc
  · injection h with h2
    subst h2
    intro c hc
    have hc2 : c ∈ [eidCol, ("title")] := (List.mem_filter.mp hc).1
    simpa using hc2

theorem salLatest_cols (n : Tables) (sl : DataFrame)
    (h : salLatestOf n = Except.ok sl) :
    ∀ c ∈ sl.cols, c = eidCol ∨ c = ("latest_salary") := by
  unfold salLatestOf at h
  split at h
  · cases hs1 : latest_per_employee_app n.salary (salSortCol n.salary) with
    | error e =>
      rw [hs1] at h
      simp only [exbind_err] at h
      cases h
    | ok slat =>
      rw [hs1] at h
      simp only [exbind_ok] at h
      cases hs2 : DataFrame.selectCols slat [eidCol, ("amount")] with
      | error e =>
        rw [hs2] at h
        simp only [exbind_err] at h
        cases h
      | ok s2 =>
        rw [hs2] at h
        simp only [exbind_ok] at h
        injection h with h2
        subst h2
        intro c hc
        simp only [DataFrame.renameCol] at hc
        rw [selectCols_cols slat [eidCol, ("amount")] s2 hs2] at hc
        rcases List.mem_map.mp hc with ⟨d, hd, rfl⟩
        have hd2 : d = eidCol ∨ d = ("amount") := by simpa using hd
        rcases hd2 with rfl | rfl
        · left
          rw [if_neg (by decide)]
        · right
          rw [if_pos rfl]
  · injection h with h2
    subst h2
    intro c hc
    simpa using hc

theorem extraMerge_map_get (snapshot cur_snap : DataFrame) (out : DataFrame) (c : String)
    (h : extraMerge snapshot cur_snap = Except.ok out)
    (hcs : (keysOf cur_snap).Nodup) (hs : safeName c)
    (hc : snapshot.cols.contains c = true) :
    out.rows.map (fun x => Row.get x c) = snapshot.rows.map (fun lr => Row.get lr c) := by
  unfold extraMerge at h
  simp only [] at h
  split at h
  · injection h with h2
    subst h2
    rfl
  · cases hsel : cur_snap.selectCols (eidCol :: cur_snap.cols.filter
        (fun c2 => !(snapshot.cols.contains c2) && !(decide (c2 = eidCol)))) with
    | error e =>
      rw [hsel] at h
      simp only [exbind_err] at h
      cases h
    | ok sel =>
      rw [hsel] at h
      simp only [exbind_ok] at h
      have hu : (keysOf sel).Nodup := by
        rw [keysOf_selectCols_head cur_snap _ sel hsel]
        exact hcs
      have hone : c = eidCol ∨ sel.cols.contains c = false := by
        by_cases hce : c = eidCol
        · exact Or.inl hce
        · right
          rw [selectCols_cols cur_snap _ sel hsel]
          have hnm : c ∉ eidCol :: cur_snap.cols.filter
              (fun c2 => !(snapshot.cols.contains c2) && !(decide (c2 = eidCol))) := by
            intro hmem
            rcases List.mem_cons.mp hmem with hm | hm
            · exact hce hm
            · have hflt := (List.mem_filter.mp hm).2
              simp at hflt
              exact hflt.1 (by simpa using hc)
          simpa using hnm
      exact mergeLeft_map_get snapshot sel eidCol out c h hu hs hone

/-- C6 counterexample: on `c6Tables` the primary dept source
(`dept_emp` joined with `department`) is structurally usable but has no
record for employee 2, while the secondary `cur_snap` holds "Ops" for
that employee; yet the snapshot's `dept_name` for employee 2 is NaN, not
"Ops" — the fallback never applies per entity. Employee 1, covered by
the primary, gets the primary value "Eng". -/
theorem C6_counterexample :
    (rowsFor (Value.int 2) (snapOf (load_data c6Tables 2026 (2026, 1, 1)))).map
        (fun r => Row.get r ("dept_name")) = [Value.na] ∧
    (rowsFor (Value.int 2) c6Tables.cur_snap).map
        (fun r => Row.get r ("dept_name")) = [Value.str ("Ops")] ∧
    (rowsFor (Value.int 2) c6Tables.dept_emp).length = 0 ∧
    (rowsFor (Value.int 1) (snapOf (load_data c6Tables 2026 (2026, 1, 1)))).map
        (fun r => Row.get r ("dept_name")) = [Value.str ("Eng")] := by
  decide

/-- C6 (amended): the source-vs-fallback choice for the dept attribute
is table-level, not per-entity. Whenever `deptLatestOf` resolves to the
attribute table `dl` (the primary reduction when `dept_emp` and
`department` carry the required columns, otherwise the deduplicated
`cur_snap` projection), every snapshot row's `dept_name` is exactly the
`dl` value for that row's `employee_id` — NaN when the entity is absent
from `dl`, regardless of what the other source holds for it. Stated
under key-uniqueness of the right-hand sources and absence of a
`dept_name`/`employee_id` name collision in `employee`/`department`. -/
theorem C6_amended_table_level_fallback (t : Tables) (nowYear : Int)
    (today : Int × Int × Int)
    (hok : (load_data t nowYear today).isOk = true)
    (hcs : (keysOf t.cur_snap).Nodup)
    (hdept : (t.department.rows.map (fun rr => Row.get rr ("dept_id"))).Nodup)
    (hdept_eid : t.department.cols.contains eidCol = false)
    (dl : DataFrame) (hdl : deptLatestOf (normTables t) = Except.ok dl)
    (hdln : dl.cols.contains ("dept_name") = true)
    (hemp_cols : t.employee.cols.contains ("dept_name") = false)
    (hemp_rows : ∀ r ∈ t.employee.rows, Row.carries r ("dept_name") = false) :
    (snapOf (load_data t nowYear today)).rows.map (fun r => Row.get r ("dept_name"))
      = (keysOf (snapOf (load_data t nowYear today))).map
          (fun k => lookupVal dl eidCol k ("dept_name")) := by
  cases hl : load_data t nowYear today with
  | error e =>
    rw [hl] at hok
    cases hok
  | ok res =>
    obtain ⟨dl2, tl, sl, s1, s2, s3, h1, h2, h3, h4, h5, h6, h7⟩ :=
      load_data_ok_parts t nowYear today res hl
    have hdleq : dl2 = dl := by
      have hh := h1.symm.trans hdl
      injection hh
    rw [hdleq] at h1 h4
    have hempc : (prepEmp (normTables t).employee nowYear today).cols.contains
        ("dept_name") = false := by
      apply prepEmp_cols_contains_false _ nowYear today _ (by decide) (by decide) (by decide)
      exact (dateNorm_cols t.employee
        [("birth_date"), ("hire_date"), ("termination_date")]) ▸ hemp_cols
    have hempr : ∀ r ∈ (prepEmp (normTables t).employee nowYear today).rows,
        Row.carries r ("dept_name") = false := by
      apply prepEmp_rows_carries _ nowYear today _ (by decide) (by decide) (by decide)
      exact dateNorm_rows_carries t.employee
        [("birth_date"), ("hire_date"), ("termination_date")] ("dept_name")
        (by decide) hemp_rows
    have hdl_eid : dl.cols.contains eidCol = true := (mergeLeft_ok_contains _ _ _ _ h4).2
    have htl_eid : tl.cols.contains eidCol = true := (mergeLeft_ok_contains _ _ _ _ h5).2
    have hdlu : (keysOf dl).Nodup :=
      deptLatest_keys_nodup (normTables t) dl h1 hcs hdept hdept_eid hdl_eid
    have htlu : (keysOf tl).Nodup := titleLatest_keys_nodup (normTables t) tl h2 hcs htl_eid
    have hslu : (keysOf sl).Nodup := salLatest_keys_nodup (normTables t) sl h3
    have htl_dn : tl.cols.contains ("dept_name") = false := by
      have hnm : ("dept_name") ∉ tl.cols := by
        intro hmem
        rcases titleLatest_cols (normTables t) tl h2 _ hmem with hcg | hcg
        · exact absurd hcg (by decide)
        · exact absurd hcg (by decide)
      simpa using hnm
    have hsl_dn : sl.cols.contains ("dept_name") = false := by
      have hnm : ("dept_name") ∉ sl.cols := by
        intro hmem
        rcases salLatest_cols (normTables t) sl h3 _ hmem with hcg | hcg
        · exact absurd hcg (by decide)
        · exact absurd hcg (by decide)
      simpa using hnm
    have h_s1_dn : ("dept_name") ∈ s1.cols :=
      mergeLeft_mem_cols_right _ dl eidCol s1 ("dept_name") h4 (by simpa using hdln)
        (by decide) hempc
    have hov2 : mergeOverlap s1 tl eidCol ("dept_name") = false := by
      unfold mergeOverlap
      rw [htl_dn]
      simp
    have h_s2_dn : ("dept_name") ∈ s2.cols :=
      mergeLeft_mem_cols_left s1 tl eidCol s2 ("dept_name") h5 h_s1_dn hov2
    have hov3 : mergeOverlap s2 sl eidCol ("dept_name") = false := by
      unfold mergeOverlap
      rw [hsl_dn]
      simp
    have h_s3_dn : ("dept_name") ∈ s3.cols :=
      mergeLeft_mem_cols_left s2 sl eidCol s3 ("dept_name") h6 h_s2_dn hov3
    have m4 : res.snapshot.rows.map (fun x => Row.get x ("dept_name"))
        = s3.rows.map (fun lr => Row.get lr ("dept_name")) :=
      extraMerge_map_get s3 (normTables t).cur_snap res.snapshot ("dept_name") h7 hcs
        safeName_dept_name (by simpa using h_s3_dn)
    have m3 : s3.rows.map (fun x => Row.get x ("dept_name"))
        = s2.rows.map (fun lr => Row.get lr ("dept_name")) :=
      mergeLeft_map_get s2 sl eidCol s3 ("dept_name") h6 hslu safeName_dept_name
        (Or.inr hsl_dn)
    have m2 : s2.rows.map (fun x => Row.get x ("dept_name"))
        = s1.rows.map (fun lr => Row.get lr ("dept_name")) :=
      mergeLeft_map_get s1 tl eidCol s2 ("dept_name") h5 htlu safeName_dept_name
        (Or.inr htl_dn)
    have m1 : s1.rows.map (fun x => Row.get x ("dept_name"))
        = (prepEmp (normTables t).employee nowYear today).rows.map
            (fun lr => lookupVal dl eidCol (Row.get lr eidCol) ("dept_name")) :=
      mergeLeft_map_get_right (prepEmp (normTables t).employee nowYear today) dl eidCol s1
        ("dept_name") h4 hdlu safeName_dept_name (by decide) hempc (by simpa using hdln)
        hempr
    have hk7 : keysOf res.snapshot = keysOf s3 :=
      extraMerge_keys s3 (normTables t).cur_snap res.snapshot h7 hcs
    have hk6 : keysOf s3 = keysOf s2 := by
      unfold keysOf
      exact mergeLeft_map_get s2 sl eidCol s3 eidCol h6 hslu safeName_eid (Or.inl rfl)
    have hk5 : keysOf s2 = keysOf s1 := by
      unfold keysOf
      exact mergeLeft_map_get s1 tl eidCol s2 eidCol h5 htlu safeName_eid (Or.inl rfl)
    have hk4 : keysOf s1 = keysOf (prepEmp (normTables t).employee nowYear today) := by
      unfold keysOf
      exact mergeLeft_map_get (prepEmp (normTables t).employee nowYear today) dl eidCol s1
        eidCol h4 hdlu safeName_eid (Or.inl rfl)
    show res.snapshot.rows.map (fun r => Row.get r ("dept_name"))
        = (keysOf res.snapshot).map (fun k => lookupVal dl eidCol k ("dept_name"))
    rw [m4, m3, m2, m1, hk7, hk6, hk5, hk4]
    unfold keysOf
    rw [List.map_map]
    rfl

/-- Witness for C6 (amended) on the `c6Tables` fixture, whose resolved
dept attribute table is `c6dl`: the snapshot's `dept_name` column equals
the `c6dl` lookup of each snapshot identifier. -/
theorem C6_amended_table_level_fallback_witness :
    (snapOf (load_data c6Tables 2026 (2026, 1, 1))).rows.map
        (fun r => Row.get r ("dept_name"))
      = (keysOf (snapOf (load_data c6Tables 2026 (2026, 1, 1)))).map
          (fun k => lookupVal c6dl eidCol k ("dept_name")) :=
  C6_amended_table_level_fallback c6Tables 2026 (2026, 1, 1) (by decide) (by decide)
    (by decide) (by decide) c6dl (by decide) (by decide) (by decide) (by decide)
